import Mathlib

/-!
Verification development for the EasyDiverPlus enrichment core.

This file gives a shallow embedding, in Lean 4, of the bootstrap/enrichment
computation engine of the repository:

* `safe_divide`            — `safe_divide` in `src/modified_counts.py` (lines
  159-176) and `src/easy_diver_2_gui/modified_counts.py` (lines 180-197);
* `process_enrichments`    — `process_enrichments` in
  `src/easy_diver_2_gui/modified_counts.py` (lines 258-322); the variant in
  `src/modified_counts.py` (lines 421-485) is the same code modulo the column
  suffixes (`_in`/`_out` there correspond to `_pre`/`_post` here);
* `merge_data_for_rounds`  — the round merger of
  `src/easy_diver_2_gui/modified_counts.py` (lines 324-424), and
  `merge_data_for_rounds_mc` for the `src/modified_counts.py` variant
  (lines 487-592), which joins on `Sequence` alone and backfills missing
  tables with `np.nan` instead of `pd.NA`;
* `bootstrap_counts_binomial` — the cached bootstrap engine of
  `src/seq_names_and_bootstrap.py` (lines 75-116), plus the uncached variant
  of `src/modified_counts.py` (lines 288-319);
* `easy_diver_counts_row`  — the per-row post-processing of
  `easy_diver_counts_to_df` (`src/modified_counts.py` lines 407-417,
  `src/seq_names_and_bootstrap.py` lines 192-209);
* `base_encode` / `unique_sequence_name_generator` — the unique-name assigner
  (`src/seq_names_and_bootstrap.py` lines 11-73, `src/modified_counts.py`
  lines 178-240).

Scalar cells of the pandas DataFrames are modelled by `PVal`: a finite float
is a rational (`PVal.num`), `float('nan')`/`np.nan` is `PVal.nan`, the pandas
missing scalar `pd.NA` is `PVal.na`, and the Python object `None` is
`PVal.none`.  Fallible Python code is modelled in the `Except PyErr` monad:
`None > 0` and `bool(pd.NA)` raise `TypeError`; dividing by an exact zero
raises `ZeroDivisionError` (Python `int`/`float` semantics; with NumPy scalar
operands the same inputs instead surface an invalid Binomial parameter /
infinity, so "raises or propagates a non-result" is the common outcome this
model captures as an error).
-/

/-- A scalar value as it appears in a pandas cell or a Python variable of the
enrichment code: `none` is Python `None`, `nan` is `float('nan')`/`np.nan`,
`na` is `pandas.NA`, and `num q` is a finite float, modelled exactly as the
rational `q`. -/
inductive PVal where
  | none : PVal
  | nan  : PVal
  | na   : PVal
  | num  : ℚ → PVal
deriving DecidableEq

/-- The Python exception kinds the embedded code can raise. -/
inductive PyErr where
  | typeError         : PyErr
  | zeroDivisionError : PyErr
deriving DecidableEq

/-- Evaluation of the Python expression `x > 0` used as an `if` condition.
`None > 0` raises `TypeError`; `pd.NA > 0` evaluates to `pd.NA`, whose
truthiness (`bool(pd.NA)`) raises `TypeError`; `float('nan') > 0` is `False`;
a finite number compares numerically. -/
def truthyGt0 (v : PVal) : Except PyErr Bool :=
  match v with
  | PVal.none => Except.error PyErr.typeError
  | PVal.na => Except.error PyErr.typeError
  | PVal.nan => Except.ok false
  | PVal.num q => Except.ok (decide (0 < q))

/-- Python's binary `/` on the values the enrichment code feeds it.
`None` operands raise `TypeError`; `pd.NA` propagates without dividing;
`nan` propagates except that a `nan` numerator over an exact zero raises
`ZeroDivisionError` (Python `float` semantics); finite numbers divide, with
an exact zero denominator raising `ZeroDivisionError`. -/
def pyDiv (a b : PVal) : Except PyErr PVal :=
  match a, b with
  | PVal.none, _ => Except.error PyErr.typeError
  | _, PVal.none => Except.error PyErr.typeError
  | PVal.na, _ => Except.ok PVal.na
  | _, PVal.na => Except.ok PVal.na
  | PVal.nan, PVal.nan => Except.ok PVal.nan
  | PVal.nan, PVal.num q => if q = 0 then Except.error PyErr.zeroDivisionError else Except.ok PVal.nan
  | PVal.num _, PVal.nan => Except.ok PVal.nan
  | PVal.num x, PVal.num y =>
      if y = 0 then Except.error PyErr.zeroDivisionError else Except.ok (PVal.num (x / y))

/-- `safe_divide(a, b, default)` (both `modified_counts.py` variants):
returns `None` if either operand is `None`, otherwise divides, catching
`ZeroDivisionError` and returning the caller-supplied default.  Any other
exception kind would propagate (the `except` clause names only
`ZeroDivisionError`), hence the `Except` result type. -/
def safe_divide (a b : PVal) (d : ℚ) : Except PyErr PVal :=
  if a = PVal.none ∨ b = PVal.none then Except.ok PVal.none
  else
    match pyDiv a b with
    | Except.ok v => Except.ok v
    | Except.error PyErr.zeroDivisionError => Except.ok (PVal.num d)
    | Except.error e => Except.error e

/-- A merged per-round row, as consumed by `process_enrichments`
(`easy_diver_2_gui/modified_counts.py`; the `modified_counts.py` variant uses
column suffixes `_in`/`_out` for `_pre`/`_post`).  `hasNegCol` models the
Python test `'Count_neg' in row.index` (column presence); rows produced by
`merge_data_for_rounds` always materialize the `_neg` columns, so there it is
`true`.  The `Total_Unique_Sequences`/`Total_Molecules`/`Round`/`Type`
columns are omitted: no enrichment arithmetic reads them (they only feed the
CSV metadata header). -/
structure MRow where
  Unique_Sequence_Name : String
  Sequence : String
  hasNegCol : Bool
  Count_post : PVal
  Count_Lower_post : PVal
  Count_Upper_post : PVal
  Freq_post : PVal
  Freq_Lower_post : PVal
  Freq_Upper_post : PVal
  Count_pre : PVal
  Count_Lower_pre : PVal
  Count_Upper_pre : PVal
  Freq_pre : PVal
  Freq_Lower_pre : PVal
  Freq_Upper_pre : PVal
  Count_neg : PVal
  Count_Lower_neg : PVal
  Count_Upper_neg : PVal
  Freq_neg : PVal
  Freq_Lower_neg : PVal
  Freq_Upper_neg : PVal
deriving DecidableEq

/-- The dictionary returned by `process_enrichments`. -/
structure EnrichmentResult where
  Sequence : String
  Enr_post : PVal
  Enr_post_lower : PVal
  Enr_post_upper : PVal
  Enr_neg : PVal
  Enr_neg_lower : PVal
  Enr_neg_upper : PVal
  Enr_ratio : PVal
  Enr_ratio_lower : PVal
  Enr_ratio_upper : PVal
deriving DecidableEq

/-- The first `if` of `process_enrichments`: given the already-evaluated gate
`Freq_Lower_pre > 0`, compute
`(enr_post_min, enr_post_max, enr_neg_min, enr_neg_max)`.  In the gate branch
the two (or four) `safe_divide` calls run in Python statement order; in the
"not enough data" `else` branch all four are the number `0`.  When
`include_negative` (`'Count_neg' in row.index`) is false, `enr_neg_min` and
`enr_neg_max` are Python `None`. -/
def enr_bounds (row : MRow) (gate : Bool) : Except PyErr (PVal × PVal × PVal × PVal) :=
  if gate then
    match safe_divide row.Freq_Lower_post row.Freq_Upper_pre 0 with
    | Except.error e => Except.error e
    | Except.ok epmin =>
      match safe_divide row.Freq_Upper_post row.Freq_Lower_pre 0 with
      | Except.error e => Except.error e
      | Except.ok epmax =>
        if row.hasNegCol then
          match safe_divide row.Freq_Lower_neg row.Freq_Upper_pre 0 with
          | Except.error e => Except.error e
          | Except.ok enmin =>
            match safe_divide row.Freq_Upper_neg row.Freq_Lower_pre 0 with
            | Except.error e => Except.error e
            | Except.ok enmax => Except.ok (epmin, epmax, enmin, enmax)
        else Except.ok (epmin, epmax, PVal.none, PVal.none)
  else Except.ok (PVal.num 0, PVal.num 0, PVal.num 0, PVal.num 0)

/-- `if enr_post_max > 0: enr_post = safe_divide(Freq_post, Freq_pre) else None`. -/
def enr_post_point (row : MRow) (bounds : PVal × PVal × PVal × PVal) : Except PyErr PVal :=
  match truthyGt0 bounds.2.1 with
  | Except.error e => Except.error e
  | Except.ok true => safe_divide row.Freq_post row.Freq_pre 0
  | Except.ok false => Except.ok PVal.none

/-- `if include_negative and enr_neg_max > 0: enr_neg = safe_divide(Freq_neg,
Freq_pre) else None` — the Python `and` short-circuits, so the comparison is
not evaluated when the `Count_neg` column is absent. -/
def enr_neg_point (row : MRow) (bounds : PVal × PVal × PVal × PVal) : Except PyErr PVal :=
  if row.hasNegCol then
    match truthyGt0 bounds.2.2.2 with
    | Except.error e => Except.error e
    | Except.ok true => safe_divide row.Freq_neg row.Freq_pre 0
    | Except.ok false => Except.ok PVal.none
  else Except.ok PVal.none

/-- `if enr_neg_max > 0 and enr_neg_min > 0:` compute the ratio bounds
`(enr_ratio_min, enr_ratio_max)`, else both `None`.  Note this gate is not
guarded by `include_negative`: with the `_neg` column absent and the pre gate
taken, `enr_neg_max` is Python `None` and `None > 0` raises `TypeError`. -/
def enr_ratio_bounds (bounds : PVal × PVal × PVal × PVal) : Except PyErr (PVal × PVal) :=
  match truthyGt0 bounds.2.2.2 with
  | Except.error e => Except.error e
  | Except.ok false => Except.ok (PVal.none, PVal.none)
  | Except.ok true =>
    match truthyGt0 bounds.2.2.1 with
    | Except.error e => Except.error e
    | Except.ok false => Except.ok (PVal.none, PVal.none)
    | Except.ok true =>
      match safe_divide bounds.1 bounds.2.2.2 0 with
      | Except.error e => Except.error e
      | Except.ok rmin =>
        match safe_divide bounds.2.1 bounds.2.2.1 0 with
        | Except.error e => Except.error e
        | Except.ok rmax => Except.ok (rmin, rmax)

/-- `process_enrichments(row)` (`easy_diver_2_gui/modified_counts.py` lines
258-322; the identically-structured `modified_counts.py` lines 421-485 with
`pre ↦ in`, `post ↦ out`).  The stages are the Python statements in order:
the `Freq_Lower_pre > 0` gate, the interval bounds, the two point estimates,
the ratio bounds, the `Enr_ratio` point estimate, and the returned dict
(whose `*_lower`/`*_upper` entries are `None` whenever the matching point
estimate is `None`). -/
def process_enrichments (row : MRow) : Except PyErr EnrichmentResult :=
  match truthyGt0 row.Freq_Lower_pre with
  | Except.error e => Except.error e
  | Except.ok gate =>
    match enr_bounds row gate with
    | Except.error e => Except.error e
    | Except.ok bounds =>
      match enr_post_point row bounds with
      | Except.error e => Except.error e
      | Except.ok enr_post =>
        match enr_neg_point row bounds with
        | Except.error e => Except.error e
        | Except.ok enr_neg =>
          match enr_ratio_bounds bounds with
          | Except.error e => Except.error e
          | Except.ok rpair =>
            match safe_divide enr_post enr_neg 0 with
            | Except.error e => Except.error e
            | Except.ok ratio =>
              Except.ok
                { Sequence := row.Sequence
                  Enr_post := enr_post
                  Enr_post_lower := if enr_post = PVal.none then PVal.none else bounds.1
                  Enr_post_upper := if enr_post = PVal.none then PVal.none else bounds.2.1
                  Enr_neg := enr_neg
                  Enr_neg_lower := if enr_neg = PVal.none then PVal.none else bounds.2.2.1
                  Enr_neg_upper := if enr_neg = PVal.none then PVal.none else bounds.2.2.2
                  Enr_ratio := ratio
                  Enr_ratio_lower := rpair.1
                  Enr_ratio_upper := rpair.2 }

/-- One row of a per-source counts table, as loaded by
`easy_diver_counts_to_df` and selected by `columns_to_keep` in
`merge_data_for_rounds`.  In the gui variant the table also carries a
`Unique_Sequence_Name` column (part of the join key there); in the
`modified_counts.py` variant the name column does not exist yet (it is
stamped after the merge), so there `Unique_Sequence_Name` is unused.
`Total_Unique_Sequences`/`Total_Molecules` are omitted as in `MRow`. -/
structure CountRec where
  Unique_Sequence_Name : String
  Sequence : String
  Count : PVal
  Count_Lower : PVal
  Count_Upper : PVal
  Freq : PVal
  Freq_Lower : PVal
  Freq_Upper : PVal
deriving DecidableEq

/-- The join-key comparison of `pd.merge`: the gui variant
(`joinOnName = true`) joins `on=['Unique_Sequence_Name','Sequence']`, the
`modified_counts.py` variant (`joinOnName = false`) joins `on='Sequence'`. -/
def keyMatch (joinOnName : Bool) (p r : CountRec) : Bool :=
  (p.Sequence == r.Sequence) && (!joinOnName || (p.Unique_Sequence_Name == r.Unique_Sequence_Name))

/-- The right-hand matches a left row receives in a `pd.merge(..., how='left')`:
every matching right row, or a single "no match" (`NaN`-filled) slot when no
right row matches. -/
def joinMatches (joinOnName : Bool) (p : CountRec) (tbl : List CountRec) : List (Option CountRec) :=
  let ms := tbl.filter (fun r => keyMatch joinOnName p r)
  if ms.isEmpty then [Option.none] else ms.map Option.some

/-- Read a field from an optional matched right row, with the given value for
a missing match. -/
def fld (m : Option CountRec) (f : CountRec → PVal) (missing : PVal) : PVal :=
  match m with
  | Option.some r => f r
  | Option.none => missing

/-- Assemble one merged row from a post row and its optional pre/neg matches.
A missing match fills the suffixed columns with `missing` (`np.nan` for a
left-join miss; the table-absent backfill sentinel in the post-only branch).
The merged row always has the `Count_neg` column (`hasNegCol := true`):
`merge_data_for_rounds` materializes the `_neg` and `_pre` columns even when
those sources are absent. -/
def mkMRow (p : CountRec) (preM negM : Option CountRec) (missing : PVal) : MRow :=
  { Unique_Sequence_Name := p.Unique_Sequence_Name
    Sequence := p.Sequence
    hasNegCol := true
    Count_post := p.Count
    Count_Lower_post := p.Count_Lower
    Count_Upper_post := p.Count_Upper
    Freq_post := p.Freq
    Freq_Lower_post := p.Freq_Lower
    Freq_Upper_post := p.Freq_Upper
    Count_pre := fld preM (fun r => r.Count) missing
    Count_Lower_pre := fld preM (fun r => r.Count_Lower) missing
    Count_Upper_pre := fld preM (fun r => r.Count_Upper) missing
    Freq_pre := fld preM (fun r => r.Freq) missing
    Freq_Lower_pre := fld preM (fun r => r.Freq_Lower) missing
    Freq_Upper_pre := fld preM (fun r => r.Freq_Upper) missing
    Count_neg := fld negM (fun r => r.Count) missing
    Count_Lower_neg := fld negM (fun r => r.Count_Lower) missing
    Count_Upper_neg := fld negM (fun r => r.Count_Upper) missing
    Freq_neg := fld negM (fun r => r.Freq) missing
    Freq_Lower_neg := fld negM (fun r => r.Freq_Lower) missing
    Freq_Upper_neg := fld negM (fun r => r.Freq_Upper) missing }

/-- The row set built by `merge_data_for_rounds` before sorting.  When both a
pre and a neg table are present, the post table is left-joined with the pre
table and then with the neg table (join misses become `np.nan`).  Otherwise —
pre absent, neg absent, or both — the code's `else` branch discards any
partial merge, keeps the post table alone, and the backfill loop fills every
`_pre` and `_neg` column with `sentinel` (`pd.NA` in the gui variant,
`np.nan` in the `modified_counts.py` variant). -/
def merge_rows (sentinel : PVal) (joinOnName : Bool) (post : List CountRec)
    (pre neg : Option (List CountRec)) : List MRow :=
  match pre, neg with
  | Option.some preT, Option.some negT =>
      post.flatMap (fun p =>
        (joinMatches joinOnName p preT).flatMap (fun pm =>
          (joinMatches joinOnName p negT).map (fun nm => mkMRow p pm nm PVal.nan)))
  | _, _ => post.map (fun p => mkMRow p Option.none Option.none sentinel)

/-- Comparison used to order merged rows by `Count_post` descending: `keyGt a b`
holds when `a` must come strictly before `b` (`a`'s count greater; numbers
come before missing values, mirroring pandas putting `NaN` last). -/
def keyGt (a b : MRow) : Bool :=
  match a.Count_post, b.Count_post with
  | PVal.num x, PVal.num y => decide (y < x)
  | PVal.num _, _ => true
  | _, _ => false

/-- Stable insertion into a descending-sorted list: `r` goes after every
element it does not strictly precede. -/
def insertRow (r : MRow) : List MRow → List MRow
  | [] => [r]
  | x :: xs => if keyGt r x then r :: x :: xs else x :: insertRow r xs

/-- A sort of the merged rows by `Count_post` descending.  `DataFrame.sort_values`
with the default `kind='quicksort'` guarantees only the ordering, not tie
order; this model uses a stable insertion sort as one admissible refinement
(see `pandas_sort_values` for the contract actually guaranteed). -/
def sortByCountPost (l : List MRow) : List MRow :=
  l.foldl (fun acc r => insertRow r acc) []

/-- `merge_data_for_rounds(post_df, pre_df, neg_df)` of
`easy_diver_2_gui/modified_counts.py` (lines 324-424): join key is
`['Unique_Sequence_Name','Sequence']` and the table-absent backfill sentinel
is `pd.NA`.  (The reset of the index and the column reordering do not change
the row contents and are not modelled.) -/
def merge_data_for_rounds (post : List CountRec) (pre neg : Option (List CountRec)) : List MRow :=
  sortByCountPost (merge_rows PVal.na true post pre neg)

/-- `merge_data_for_rounds(out_df, sequence_dict, in_df, neg_df)` of
`src/modified_counts.py` (lines 487-592): join key is `Sequence` alone and
the table-absent backfill sentinel is `np.nan`.  The stamping of the
`Unique_Sequence_Name` column (via `unique_sequence_name_generator`, modelled
separately below) writes only that name column and reads none of the
count/frequency columns, so it is omitted here. -/
def merge_data_for_rounds_mc (post : List CountRec) (pre neg : Option (List CountRec)) : List MRow :=
  sortByCountPost (merge_rows PVal.nan false post pre neg)

/-- Ordered-output requirement of sorting the merged rows by `Count_post`
descending: no adjacent pair is strictly out of order. -/
def sortedDescByCountPost (l : List MRow) : Prop :=
  l.Chain' (fun a b => keyGt b a = false)

/-- The contract pandas guarantees for
`merged_df.sort_values(by='Count_post', ascending=False)` with the default
`kind='quicksort'` (`easy_diver_2_gui/modified_counts.py` line 394,
`modified_counts.py` line 557): the output is a permutation of the input,
ordered by `Count_post` descending.  The default quicksort is documented as
not stable, so nothing constrains the relative order of rows with equal
`Count_post`. -/
def pandas_sort_values (inp outp : List MRow) : Prop :=
  outp.Perm inp ∧ sortedDescByCountPost outp

/-- A cell value is a float: a finite number or `np.nan` — never Python
`None` and never `pd.NA`.  This is what every numeric cell of the
`modified_counts.py` pipeline holds: loaded columns are NumPy floats, left
join misses and the table-absent backfill are `np.nan`. -/
def numOrNan (v : PVal) : Prop := v = PVal.nan ∨ ∃ q, v = PVal.num q

/-- The frequency cells `process_enrichments` reads are floats, and the
`Count_neg` column exists (the merger always materializes it). -/
def MRowWF (row : MRow) : Prop :=
  row.hasNegCol = true ∧
  numOrNan row.Freq_post ∧ numOrNan row.Freq_Lower_post ∧ numOrNan row.Freq_Upper_post ∧
  numOrNan row.Freq_pre ∧ numOrNan row.Freq_Lower_pre ∧ numOrNan row.Freq_Upper_pre ∧
  numOrNan row.Freq_neg ∧ numOrNan row.Freq_Lower_neg ∧ numOrNan row.Freq_Upper_neg

/-- The cells of a loaded counts-table row are floats. -/
def CountRecWF (r : CountRec) : Prop :=
  numOrNan r.Freq ∧ numOrNan r.Freq_Lower ∧ numOrNan r.Freq_Upper

/-- Mutable state threaded through the cached bootstrap engine of
`seq_names_and_bootstrap.py`: `cache` models the JSON-backed
`bootstrap_dict`, keyed by `str(count_seq)` — the observed count ONLY, with
no total in the key (modelled as the count itself; `str` is injective on
naturals) — and `log` records each actual resampling event as the
`(total_counts, count_seq)` pair it drew from, so "resampled at most once"
is auditable in the model. -/
structure BootState where
  cache : List (ℕ × (ℚ × ℚ))
  log : List (ℕ × ℕ)
deriving DecidableEq

/-- `bootstrap_counts_binomial` of `src/seq_names_and_bootstrap.py` (lines
75-116).  `sampleCI total count` abstracts the seeded draw
`np.random.binomial(total, count/total, 1000)` followed by the rounded
2.5/97.5 percentiles: `np.random.seed(42)` is re-issued before every
resampling, so the draw is a pure function of `(total, count)`.  On a cache
hit the stored interval is returned unchanged; on a miss the code computes
`count_seq / total_counts` first, which for `total_counts = 0` raises
(`ZeroDivisionError` for Python ints; NumPy int operands instead yield `nan`
and `np.random.binomial` then rejects the parameter — an exception either
way); otherwise it resamples, stores under the count key and logs the
event. -/
def bootstrap_counts_binomial (sampleCI : ℕ → ℕ → ℚ × ℚ) (total_counts count_seq : ℕ)
    (st : BootState) : Except PyErr ((ℚ × ℚ) × BootState) :=
  match st.cache.lookup count_seq with
  | Option.some iv => Except.ok (iv, st)
  | Option.none =>
    if total_counts = 0 then Except.error PyErr.zeroDivisionError
    else
      Except.ok (sampleCI total_counts count_seq,
        { cache := (count_seq, sampleCI total_counts count_seq) :: st.cache
          log := st.log ++ [(total_counts, count_seq)] })

/-- The uncached `bootstrap_counts_binomial` of `src/modified_counts.py`
(lines 288-319): no dictionary, same division-first structure. -/
def bootstrap_counts_binomial_nc (sampleCI : ℕ → ℕ → ℚ × ℚ)
    (total_counts count_seq : ℕ) : Except PyErr (ℚ × ℚ) :=
  if total_counts = 0 then Except.error PyErr.zeroDivisionError
  else Except.ok (sampleCI total_counts count_seq)

/-- Round half to even on a rational — the rounding `np.rint` applies inside
`np.around`.  (In binary floating point an exact decimal half like `.975` is
stored slightly below the half and resolves downward; either way a half case
lands strictly between the two neighbouring hundredths, which is all the
development relies on.) -/
def roundHalfEven (x : ℚ) : ℤ :=
  if x - Int.floor x < 1/2 then Int.floor x
  else if (1:ℚ)/2 < x - Int.floor x then Int.floor x + 1
  else if 2 ∣ Int.floor x then Int.floor x else Int.floor x + 1

/-- `np.around(x, 2)`: round to two decimal places. -/
def np_around2 (x : ℚ) : ℚ := (roundHalfEven (100 * x) : ℚ) / 100

/-- `np.percentile(a, q)` with the default linear interpolation, on a sample
array of length `n` given in ascending order as the indexed family `x`
(`x i` is the `i`-th smallest sample, `0 ≤ i < n`): the rank is
`h = q/100 * (n-1)` and the value interpolates between the neighbouring
order statistics.  When `h` is integral the interpolation term vanishes,
matching numpy's behaviour at the edges. -/
def np_percentile (n : ℕ) (x : ℕ → ℚ) (q : ℚ) : ℚ :=
  x (Int.floor (q / 100 * ((n : ℚ) - 1))).toNat +
    (q / 100 * ((n : ℚ) - 1) - Int.floor (q / 100 * ((n : ℚ) - 1))) *
      (x ((Int.floor (q / 100 * ((n : ℚ) - 1))).toNat + 1) -
        x (Int.floor (q / 100 * ((n : ℚ) - 1))).toNat)

/-- `bootstrapped_95_confidence_interval` as computed by both
`bootstrap_counts_binomial` variants: the 2.5th and 97.5th percentiles of the
(sorted) bootstrap counts, each rounded with `np.around(., 2)`. -/
def bootstrap_ci_from_samples (n : ℕ) (x : ℕ → ℚ) : ℚ × ℚ :=
  (np_around2 (np_percentile n x (5/2)), np_around2 (np_percentile n x (195/2)))

/-- One loaded CountRecord after the loader's post-processing. -/
structure LoadedRec where
  Count : ℕ
  Freq : ℚ
  Count_Lower : ℚ
  Count_Upper : ℚ
  Freq_Lower : ℚ
  Freq_Upper : ℚ
deriving DecidableEq

/-- The per-row post-processing of `easy_diver_counts_to_df` in
`src/modified_counts.py` (lines 407-417), given the row's observed count,
the file's total molecule count, and the bootstrap interval `ci` merged in
for the row: `df['Count_Lower'].replace(0, 1)` replaces the exact value `0`
by `1` — a value replacement, not a clamp — and the frequency bounds divide
the (replaced) count bounds by the total. -/
def easy_diver_counts_row (count total : ℕ) (ci : ℚ × ℚ) : LoadedRec :=
  { Count := count
    Freq := (count : ℚ) / (total : ℚ)
    Count_Lower := if ci.1 = 0 then 1 else ci.1
    Count_Upper := ci.2
    Freq_Lower := (if ci.1 = 0 then 1 else ci.1) / (total : ℚ)
    Freq_Upper := ci.2 / (total : ℚ) }

/-- The `src/seq_names_and_bootstrap.py` loader variant (lines 192-209): the
same `replace(0, 1)` followed by `astype(int)` — truncation, which for the
non-negative percentile values is the floor — and percent-scaled
frequencies. -/
def easy_diver_counts_row_sn (count total : ℕ) (ci : ℚ × ℚ) : LoadedRec :=
  { Count := count
    Freq := 100 * ((count : ℚ) / (total : ℚ))
    Count_Lower := ((Int.floor (if ci.1 = 0 then 1 else ci.1) : ℤ) : ℚ)
    Count_Upper := ((Int.floor ci.2 : ℤ) : ℚ)
    Freq_Lower := 100 * (((Int.floor (if ci.1 = 0 then 1 else ci.1) : ℤ) : ℚ) / (total : ℚ))
    Freq_Upper := 100 * (((Int.floor ci.2 : ℤ) : ℚ) / (total : ℚ)) }

/-- The Base58 alphabet of `base_encode`: digits and letters without the
visually ambiguous characters. -/
def chars58 : List Char := "123456789ABCDEFGHJKLMNPQRSTUVWXYZabcdefghijkmnopqrstuvwxyz".toList

/-- The little-endian base-58 digit list extracted by the while loop of
`base_encode` (`divmod(n, 58)` until `n = 0`), written with an explicit fuel
so it is structural (the quotient shrinks, so fuel `n` always suffices);
`digits58_eq_digits` identifies it with `Nat.digits 58`. -/
def digits58Aux : ℕ → ℕ → List ℕ
  | _, 0 => []
  | 0, _ + 1 => []
  | fuel + 1, n + 1 => ((n + 1) % 58) :: digits58Aux fuel ((n + 1) / 58)

/-- The base-58 digits of `n`, least significant first. -/
def digits58 (n : ℕ) : List ℕ := digits58Aux n n

/-- `base_encode(sequence_number, prefix)` (`src/seq_names_and_bootstrap.py`
lines 11-36; the `src/modified_counts.py` variant at lines 178-203 fixes the
prefix to `seq`).  The while loop repeatedly takes `divmod(n, 58)` and
prepends the digit character — i.e. the base-58 digits of `n`
least-significant first (`Nat.digits 58 n`), reversed; `0` is special-cased
to the digit character `'1'` (`chars58[0]`). -/
def base_encode (pfx : String) (sequence_number : ℕ) : String :=
  if sequence_number = 0 then pfx ++ "_" ++ "1"
  else
    pfx ++ "_" ++
      String.mk (((digits58 sequence_number).reverse).map (fun d => chars58.getD d '?'))

/-- `unique_sequence_name_generator(row, sequence_dict, prefix)`
(`src/seq_names_and_bootstrap.py` lines 38-73): on a dictionary hit the
stored name is returned and the dictionary is unchanged; on a miss the new
name encodes `len(sequence_dict) + 1` and is stored.  The dictionary is
modelled as an insertion-ordered association list. -/
def unique_sequence_name_generator (pfx : String) (sequence_dict : List (String × String))
    (seq : String) : String × List (String × String) :=
  match sequence_dict.lookup seq with
  | Option.some n => (n, sequence_dict)
  | Option.none =>
    (base_encode pfx (sequence_dict.length + 1),
     sequence_dict ++ [(seq, base_encode pfx (sequence_dict.length + 1))])

/-- Fixed name prefix of the `modified_counts.py` variant. -/
def pfxSeq : String := "seq"

/-- `unique_sequence_name_generator(row, sequence_dict)` of
`src/modified_counts.py` (lines 205-240): on a miss the new name encodes
`int(row.name)` — the row's DataFrame index, passed here as `rowName`.
Within one DataFrame the indices are distinct, but each round's merged
DataFrame restarts its index at 0 while the dictionary persists across
rounds. -/
def unique_sequence_name_generator_mc (sequence_dict : List (String × String))
    (rowName : ℕ) (seq : String) : String × List (String × String) :=
  match sequence_dict.lookup seq with
  | Option.some n => (n, sequence_dict)
  | Option.none =>
    (base_encode pfxSeq rowName, sequence_dict ++ [(seq, base_encode pfxSeq rowName)])

/-- Processing a list of sequences through the assigner, threading the
dictionary (as `DataFrame.apply` does row by row, and as consecutive rounds
do via the persisted dictionary). -/
def runAssign (pfx : String) (d : List (String × String)) : List String → List (String × String)
  | [] => d
  | s :: rest => runAssign pfx (unique_sequence_name_generator pfx d s).2 rest

/-- Sequence strings used in concrete runs below. -/
def seqA : String := "A"

/-- Second sequence string for concrete runs. -/
def seqB : String := "B"

/-- Prefix used in concrete runs. -/
def pfxNT : String := "nt"

/-- Invariant of the `seq_names_and_bootstrap.py` assigner dictionary: keys
are distinct and the stored names are exactly `base_encode` of `1..len` in
order. -/
def AssignInv (pfx : String) (d : List (String × String)) : Prop :=
  d.map Prod.snd = (List.range d.length).map (fun i => base_encode pfx (i + 1)) ∧
  (d.map Prod.fst).Nodup

/-- `safe_divide` is total: the `None` guard precedes the division, `pd.NA`
and `nan` operands propagate without raising, and the only exception the
division can raise (`ZeroDivisionError`) is caught. -/
theorem safe_divide_total (a b : PVal) (d : ℚ) : ∃ v, safe_divide a b d = Except.ok v := by
  by_cases h : a = PVal.none ∨ b = PVal.none
  · exact ⟨PVal.none, by simp [safe_divide, h]⟩
  · push_neg at h
    cases a <;> cases b <;> simp_all [safe_divide, pyDiv] <;>
      first
        | exact ⟨PVal.na, rfl⟩
        | exact ⟨PVal.nan, rfl⟩
        | (rename_i q; by_cases hq : q = 0 <;> simp [hq])

theorem safe_divide_nan_num {q : ℚ} (hq : q ≠ 0) :
    safe_divide PVal.nan (PVal.num q) 0 = Except.ok PVal.nan := by
  simp [safe_divide, pyDiv, hq]

theorem safe_divide_none_right (a : PVal) (d : ℚ) :
    safe_divide a PVal.none d = Except.ok PVal.none := by
  simp [safe_divide]

theorem safe_divide_num_num {x y : ℚ} (hy : y ≠ 0) :
    safe_divide (PVal.num x) (PVal.num y) 0 = Except.ok (PVal.num (x / y)) := by
  simp [safe_divide, pyDiv, hy]

/-- Claim C8: `safe_divide(a, b, default=0)` returns null (`None`) when either
operand is null, returns the caller-supplied default when the denominator is
the number zero (for float operands, i.e. finite numbers or `nan`), otherwise
returns the quotient `a / b`; and it never raises — on every input it
produces an `ok` result, so no division by zero inside the enrichment
calculator raises an error. -/
theorem safe_divide_contract :
    (∀ (a b : PVal) (d : ℚ), a = PVal.none ∨ b = PVal.none →
      safe_divide a b d = Except.ok PVal.none) ∧
    (∀ (x : ℚ) (d : ℚ), safe_divide (PVal.num x) (PVal.num 0) d = Except.ok (PVal.num d)) ∧
    (∀ (d : ℚ), safe_divide PVal.nan (PVal.num 0) d = Except.ok (PVal.num d)) ∧
    (∀ (x y : ℚ) (d : ℚ), y ≠ 0 →
      safe_divide (PVal.num x) (PVal.num y) d = Except.ok (PVal.num (x / y))) ∧
    (∀ (a b : PVal) (d : ℚ), ∃ v, safe_divide a b d = Except.ok v) := by
  refine ⟨?_, ?_, ?_, ?_, ?_⟩
  · intro a b d h
    simp [safe_divide, h]
  · intro x d
    simp [safe_divide, pyDiv]
  · intro d
    simp [safe_divide, pyDiv]
  · intro x y d hy
    simp [safe_divide, pyDiv, hy]
  · exact safe_divide_total

/-- Witness for C8: the `safe_divide` contract evaluated at concrete inputs. -/
theorem safe_divide_contract_witness :
    safe_divide PVal.nan PVal.none 7 = Except.ok PVal.none ∧
    safe_divide (PVal.num 3) (PVal.num 0) 5 = Except.ok (PVal.num 5) ∧
    safe_divide (PVal.num 6) (PVal.num 3) 0 = Except.ok (PVal.num 2) :=
  ⟨safe_divide_contract.1 PVal.nan PVal.none 7 (Or.inr rfl),
   safe_divide_contract.2.1 3 5,
   by
    have h := safe_divide_contract.2.2.2.1 6 3 0 (by norm_num)
    rw [h]
    norm_num⟩

theorem truthyGt0_eq_ok_true {v : PVal} (h : truthyGt0 v = Except.ok true) :
    ∃ q, v = PVal.num q ∧ 0 < q := by
  cases v with
  | num q =>
    refine ⟨q, rfl, ?_⟩
    simpa [truthyGt0] using h
  | none => simp [truthyGt0] at h
  | na => simp [truthyGt0] at h
  | nan => simp [truthyGt0] at h

/-- Claim C1: in `process_enrichments`, if `Freq_Lower_pre` is the number `0`
then the "not enough data" branch is taken (`enr_post_min = enr_post_max = 0`),
and consequently the point estimate `Enr_post` (`Freq_post / Freq_pre`) is
null, as are its reported bounds; moreover, whenever a result is produced at
all, `Enr_post` is non-null only when `enr_post_max > 0` — in which case the
reported `Enr_post_upper` is exactly that positive `enr_post_max`. -/
theorem process_enrichments_freq_lower_pre_zero (row : MRow) :
    (row.Freq_Lower_pre = PVal.num 0 →
      process_enrichments row =
        Except.ok
          { Sequence := row.Sequence
            Enr_post := PVal.none
            Enr_post_lower := PVal.none
            Enr_post_upper := PVal.none
            Enr_neg := PVal.none
            Enr_neg_lower := PVal.none
            Enr_neg_upper := PVal.none
            Enr_ratio := PVal.none
            Enr_ratio_lower := PVal.none
            Enr_ratio_upper := PVal.none }) ∧
    (∀ res, process_enrichments row = Except.ok res → res.Enr_post ≠ PVal.none →
      ∃ q, res.Enr_post_upper = PVal.num q ∧ 0 < q) := by
  constructor
  · intro h
    cases hneg : row.hasNegCol <;>
      simp [process_enrichments, h, truthyGt0, enr_bounds, enr_post_point,
        enr_neg_point, enr_ratio_bounds, safe_divide, hneg]
  · intro res h hne
    unfold process_enrichments at h
    split at h
    · exact absurd h (by simp)
    · split at h
      · exact absurd h (by simp)
      · split at h
        · exact absurd h (by simp)
        · rename_i bounds hb enr_post hp
          split at h
          · exact absurd h (by simp)
          · split at h
            · exact absurd h (by simp)
            · split at h
              · exact absurd h (by simp)
              · injection h with h
                subst h
                simp only at hne ⊢
                unfold enr_post_point at hp
                split at hp
                · exact absurd hp (by simp)
                · rename_i hpg
                  obtain ⟨q, hq2, hqpos⟩ := truthyGt0_eq_ok_true hpg
                  exact ⟨q, by rw [if_neg hne, hq2], hqpos⟩
                · injection hp with hp
                  exact absurd hp.symm hne

/-- Witness for C1: at a concrete merged row with `Freq_Lower_pre = 0` the
calculator returns with a null `Enr_post`, and on a concrete row with a
positive pre gate it returns a non-null `Enr_post` whose reported upper bound
is positive. -/
theorem process_enrichments_freq_lower_pre_zero_witness :
    (process_enrichments
        { Unique_Sequence_Name := "nt_2", Sequence := "ACGT", hasNegCol := true
          Count_post := PVal.num 10, Count_Lower_post := PVal.num 4
          Count_Upper_post := PVal.num 16, Freq_post := PVal.num 10
          Freq_Lower_post := PVal.num 4, Freq_Upper_post := PVal.num 16
          Count_pre := PVal.num 3, Count_Lower_pre := PVal.num 0
          Count_Upper_pre := PVal.num 7, Freq_pre := PVal.num 3
          Freq_Lower_pre := PVal.num 0, Freq_Upper_pre := PVal.num 7
          Count_neg := PVal.nan, Count_Lower_neg := PVal.nan
          Count_Upper_neg := PVal.nan, Freq_neg := PVal.nan
          Freq_Lower_neg := PVal.nan, Freq_Upper_neg := PVal.nan } =
      Except.ok
        { Sequence := "ACGT"
          Enr_post := PVal.none, Enr_post_lower := PVal.none, Enr_post_upper := PVal.none
          Enr_neg := PVal.none, Enr_neg_lower := PVal.none, Enr_neg_upper := PVal.none
          Enr_ratio := PVal.none, Enr_ratio_lower := PVal.none, Enr_ratio_upper := PVal.none }) ∧
    (∃ q, ({ Sequence := "CCCC"
             Enr_post := PVal.num 2, Enr_post_lower := PVal.num 2
             Enr_post_upper := PVal.num 10, Enr_neg := PVal.none
             Enr_neg_lower := PVal.none, Enr_neg_upper := PVal.none
             Enr_ratio := PVal.none, Enr_ratio_lower := PVal.none
             Enr_ratio_upper := PVal.none } : EnrichmentResult).Enr_post_upper = PVal.num q ∧
           0 < q) := by
  constructor
  · exact (process_enrichments_freq_lower_pre_zero _).1 rfl
  · have hok :
        process_enrichments
            { Unique_Sequence_Name := "nt_9", Sequence := "CCCC", hasNegCol := true
              Count_post := PVal.num 10, Count_Lower_post := PVal.num 10
              Count_Upper_post := PVal.num 20, Freq_post := PVal.num 10
              Freq_Lower_post := PVal.num 10, Freq_Upper_post := PVal.num 20
              Count_pre := PVal.num 5, Count_Lower_pre := PVal.num 2
              Count_Upper_pre := PVal.num 5, Freq_pre := PVal.num 5
              Freq_Lower_pre := PVal.num 2, Freq_Upper_pre := PVal.num 5
              Count_neg := PVal.nan, Count_Lower_neg := PVal.nan
              Count_Upper_neg := PVal.nan, Freq_neg := PVal.nan
              Freq_Lower_neg := PVal.nan, Freq_Upper_neg := PVal.nan } =
          Except.ok
            { Sequence := "CCCC"
              Enr_post := PVal.num 2, Enr_post_lower := PVal.num 2
              Enr_post_upper := PVal.num 10, Enr_neg := PVal.none
              Enr_neg_lower := PVal.none, Enr_neg_upper := PVal.none
              Enr_ratio := PVal.none, Enr_ratio_lower := PVal.none
              Enr_ratio_upper := PVal.none } := by
      have h1 : truthyGt0 (PVal.num 2) = Except.ok true := by norm_num [truthyGt0]
      have h2 : truthyGt0 (PVal.num 10) = Except.ok true := by norm_num [truthyGt0]
      have h3 : truthyGt0 PVal.nan = Except.ok false := rfl
      have hd1 : safe_divide (PVal.num 10) (PVal.num 5) 0 = Except.ok (PVal.num 2) := by
        rw [safe_divide_num_num (by norm_num : (5:ℚ) ≠ 0)]
        norm_num
      have hd2 : safe_divide (PVal.num 20) (PVal.num 2) 0 = Except.ok (PVal.num 10) := by
        rw [safe_divide_num_num (by norm_num : (2:ℚ) ≠ 0)]
        norm_num
      have hd3 : safe_divide PVal.nan (PVal.num 5) 0 = Except.ok PVal.nan :=
        safe_divide_nan_num (by norm_num)
      have hd4 : safe_divide PVal.nan (PVal.num 2) 0 = Except.ok PVal.nan :=
        safe_divide_nan_num (by norm_num)
      have hd5 : safe_divide (PVal.num 2) PVal.none 0 = Except.ok PVal.none :=
        safe_divide_none_right _ _
      simp only [process_enrichments, enr_bounds, enr_post_point, enr_neg_point,
        enr_ratio_bounds, h1, h2, h3, hd1, hd2, hd3, hd4, hd5, if_true, ite_true]
      norm_num
      simp
    exact (process_enrichments_freq_lower_pre_zero _).2 _ hok (by simp)

theorem insertRow_perm (r : MRow) (l : List MRow) : (insertRow r l).Perm (r :: l) := by
  induction l with
  | nil => exact List.Perm.refl _
  | cons x xs ih =>
    unfold insertRow
    by_cases h : keyGt r x
    · simp [h]
    · simp only [h, if_neg, Bool.false_eq_true, not_false_iff, ite_false]
      exact ((ih.cons x).trans (List.Perm.swap r x xs))

theorem sortByCountPost_perm (l : List MRow) : (sortByCountPost l).Perm l := by
  suffices h : ∀ (acc : List MRow), (l.foldl (fun a r => insertRow r a) acc).Perm (acc ++ l) by
    simpa [sortByCountPost] using h []
  induction l with
  | nil => intro acc; simp
  | cons p ps ih =>
    intro acc
    have h1 := ih (insertRow p acc)
    have h2 : (insertRow p acc ++ ps).Perm (acc ++ p :: ps) := by
      have := (insertRow_perm p acc).append_right ps
      exact this.trans (List.perm_middle.symm)
    simpa using h1.trans h2

theorem keyMatch_name_iff (p r : CountRec) :
    keyMatch true p r = true ↔
      p.Sequence = r.Sequence ∧ p.Unique_Sequence_Name = r.Unique_Sequence_Name := by
  simp [keyMatch]

theorem filter_keyMatch_length_le_one (p : CountRec) (tbl : List CountRec)
    (h : (tbl.map (fun r => (r.Unique_Sequence_Name, r.Sequence))).Nodup) :
    (tbl.filter (fun r => keyMatch true p r)).length ≤ 1 := by
  induction tbl with
  | nil => simp
  | cons r rest ih =>
    simp only [List.map_cons, List.nodup_cons] at h
    obtain ⟨hnotin, hrest⟩ := h
    by_cases hm : keyMatch true p r = true
    · rw [List.filter_cons_of_pos hm]
      have hnil : rest.filter (fun x => keyMatch true p x) = [] := by
        rw [List.filter_eq_nil_iff]
        intro x hx hmx
        obtain ⟨hs1, hn1⟩ := (keyMatch_name_iff p r).mp hm
        obtain ⟨hs2, hn2⟩ := (keyMatch_name_iff p x).mp hmx
        exact hnotin (by
          refine List.mem_map.mpr ⟨x, hx, ?_⟩
          rw [← hn1, ← hs1, ← hn2, ← hs2])
      simp [hnil]
    · rw [List.filter_cons_of_neg (by simpa using hm)]
      exact ih hrest

theorem joinMatches_eq_singleton (p : CountRec) (tbl : List CountRec)
    (h : (tbl.map (fun r => (r.Unique_Sequence_Name, r.Sequence))).Nodup) :
    ∃ m, joinMatches true p tbl = [m] := by
  unfold joinMatches
  by_cases he : (tbl.filter (fun r => keyMatch true p r)).isEmpty
  · exact ⟨Option.none, by simp [he]⟩
  · have hne : tbl.filter (fun r => keyMatch true p r) ≠ [] := by
      intro hnil
      rw [hnil] at he
      simp at he
    have hpos : 0 < (tbl.filter (fun r => keyMatch true p r)).length :=
      List.length_pos.mpr hne
    have hlen : (tbl.filter (fun r => keyMatch true p r)).length = 1 :=
      le_antisymm (filter_keyMatch_length_le_one p tbl h) hpos
    obtain ⟨a, ha⟩ := List.length_eq_one.mp hlen
    exact ⟨Option.some a, by simp [he, ha]⟩

theorem merge_rows_countP_eq (sent : PVal) (post preT negT : List CountRec) (s : String)
    (hpre : (preT.map (fun r => (r.Unique_Sequence_Name, r.Sequence))).Nodup)
    (hneg : (negT.map (fun r => (r.Unique_Sequence_Name, r.Sequence))).Nodup) :
    (merge_rows sent true post (Option.some preT) (Option.some negT)).countP
        (fun r => r.Sequence == s) =
      post.countP (fun r => r.Sequence == s) := by
  induction post with
  | nil => rfl
  | cons p ps ih =>
    obtain ⟨pm, hpm⟩ := joinMatches_eq_singleton p preT hpre
    obtain ⟨nm, hnm⟩ := joinMatches_eq_singleton p negT hneg
    have hsingle :
        ((joinMatches true p preT).flatMap (fun pm2 =>
          (joinMatches true p negT).map (fun nm2 => mkMRow p pm2 nm2 PVal.nan))) =
        [mkMRow p pm nm PVal.nan] := by
      rw [hpm, hnm]
      rfl
    have hstep : merge_rows sent true (p :: ps) (Option.some preT) (Option.some negT) =
        [mkMRow p pm nm PVal.nan] ++
          merge_rows sent true ps (Option.some preT) (Option.some negT) := by
      show ((p :: ps).flatMap _) = _
      rw [List.flatMap_cons, hsingle]
      rfl
    have hmk : (mkMRow p pm nm PVal.nan).Sequence = p.Sequence := rfl
    rw [hstep, List.countP_append, ih, List.countP_cons, List.countP_cons, List.countP_nil, hmk]
    omega

theorem countP_seq_eq_zero_of_not_mem {l : List CountRec} {s : String}
    (hs : s ∉ l.map (fun r => r.Sequence)) :
    l.countP (fun r => r.Sequence == s) = 0 := by
  rw [List.countP_eq_zero]
  intro r hr
  simp only [beq_iff_eq]
  intro hcontra
  exact hs (List.mem_map.mpr ⟨r, hr, hcontra⟩)

theorem countP_seq_eq_one_of_nodup_mem {l : List CountRec} {s : String}
    (hn : (l.map (fun r => r.Sequence)).Nodup) (hs : s ∈ l.map (fun r => r.Sequence)) :
    l.countP (fun r => r.Sequence == s) = 1 := by
  induction l with
  | nil => simp at hs
  | cons r rest ih =>
    simp only [List.map_cons, List.nodup_cons] at hn
    obtain ⟨hnotin, hrest⟩ := hn
    rw [List.countP_cons]
    simp only [List.map_cons, List.mem_cons] at hs
    rcases hs with heq | hmem
    · subst heq
      have h0 : rest.countP (fun x => x.Sequence == r.Sequence) = 0 :=
        countP_seq_eq_zero_of_not_mem hnotin
      simp [h0]
    · have hr : r.Sequence ≠ s := by
        intro hcontra
        exact hnotin (hcontra ▸ hmem)
      have h1 := ih hrest hmem
      simp [h1, hr]

/-- Claim C5: the round merge is a left-outer join anchored on the mandatory
post-selection table.  For any round with all three tables present (the other
branches keep exactly the post rows by construction), provided the pre and
neg tables have no duplicate join keys: every sequence of the post table with
no duplicates occurs in exactly one merged row, and a sequence not in the
post table (in particular one only in the pre or neg table) occurs in no
merged row. -/
theorem merge_data_for_rounds_left_outer (post preT negT : List CountRec) (s : String)
    (hpre : (preT.map (fun r => (r.Unique_Sequence_Name, r.Sequence))).Nodup)
    (hneg : (negT.map (fun r => (r.Unique_Sequence_Name, r.Sequence))).Nodup) :
    (((post.map (fun r => r.Sequence)).Nodup → s ∈ post.map (fun r => r.Sequence) →
      (merge_data_for_rounds post (Option.some preT) (Option.some negT)).countP
          (fun r => r.Sequence == s) = 1)) ∧
    ((s ∉ post.map (fun r => r.Sequence) →
      (merge_data_for_rounds post (Option.some preT) (Option.some negT)).countP
          (fun r => r.Sequence == s) = 0)) := by
  have hperm :=
    List.Perm.countP_eq (fun r => r.Sequence == s)
      (sortByCountPost_perm (merge_rows PVal.na true post (Option.some preT) (Option.some negT)))
  have hcore := merge_rows_countP_eq PVal.na post preT negT s hpre hneg
  constructor
  · intro hn hm
    unfold merge_data_for_rounds
    rw [hperm, hcore]
    exact countP_seq_eq_one_of_nodup_mem hn hm
  · intro hm
    unfold merge_data_for_rounds
    rw [hperm, hcore]
    exact countP_seq_eq_zero_of_not_mem hm

/-- Witness for C5 at a concrete round: one post row whose sequence also sits
in the pre table, an extra pre-only sequence, and a neg table; the post
sequence appears in exactly one merged row and the pre-only sequence in
none. -/
theorem merge_data_for_rounds_left_outer_witness :
    ((merge_data_for_rounds
        [{ Unique_Sequence_Name := "nt_2", Sequence := "AAA", Count := PVal.num 9
           Count_Lower := PVal.num 4, Count_Upper := PVal.num 15, Freq := PVal.num (9/100)
           Freq_Lower := PVal.num (1/25), Freq_Upper := PVal.num (3/20) }]
        (Option.some
          [{ Unique_Sequence_Name := "nt_2", Sequence := "AAA", Count := PVal.num 3
             Count_Lower := PVal.num 1, Count_Upper := PVal.num 6, Freq := PVal.num (3/100)
             Freq_Lower := PVal.num (1/100), Freq_Upper := PVal.num (3/50) },
           { Unique_Sequence_Name := "nt_3", Sequence := "CCC", Count := PVal.num 2
             Count_Lower := PVal.num 1, Count_Upper := PVal.num 4, Freq := PVal.num (1/50)
             Freq_Lower := PVal.num (1/100), Freq_Upper := PVal.num (1/25) }])
        (Option.some [])).countP (fun r => r.Sequence == "AAA") = 1) ∧
    ((merge_data_for_rounds
        [{ Unique_Sequence_Name := "nt_2", Sequence := "AAA", Count := PVal.num 9
           Count_Lower := PVal.num 4, Count_Upper := PVal.num 15, Freq := PVal.num (9/100)
           Freq_Lower := PVal.num (1/25), Freq_Upper := PVal.num (3/20) }]
        (Option.some
          [{ Unique_Sequence_Name := "nt_2", Sequence := "AAA", Count := PVal.num 3
             Count_Lower := PVal.num 1, Count_Upper := PVal.num 6, Freq := PVal.num (3/100)
             Freq_Lower := PVal.num (1/100), Freq_Upper := PVal.num (3/50) },
           { Unique_Sequence_Name := "nt_3", Sequence := "CCC", Count := PVal.num 2
             Count_Lower := PVal.num 1, Count_Upper := PVal.num 4, Freq := PVal.num (1/50)
             Freq_Lower := PVal.num (1/100), Freq_Upper := PVal.num (1/25) }])
        (Option.some [])).countP (fun r => r.Sequence == "CCC") = 0) := by
  constructor
  · exact (merge_data_for_rounds_left_outer _ _ _ _ (by decide) (by decide)).1
      (by decide) (by decide)
  · exact (merge_data_for_rounds_left_outer _ _ _ _ (by decide) (by decide)).2
      (by decide)

/-- Claim C6 (code bug): the merger sorts with pandas' default
`kind='quicksort'`, whose contract (`pandas_sort_values`) does not determine
the relative order of rows with equal `Count_post`: for a concrete two-row
input with a `Count_post` tie, both orders satisfy the contract, so the
claimed "ties preserve input order" (stability) is not guaranteed by the code
as written. -/
theorem sort_values_tie_order_unspecified :
    pandas_sort_values
      [mkMRow { Unique_Sequence_Name := "nt_2", Sequence := "AAA", Count := PVal.num 5
                Count_Lower := PVal.num 2, Count_Upper := PVal.num 8, Freq := PVal.num (1/20)
                Freq_Lower := PVal.num (1/50), Freq_Upper := PVal.num (2/25) }
         Option.none Option.none PVal.na,
       mkMRow { Unique_Sequence_Name := "nt_3", Sequence := "CCC", Count := PVal.num 5
                Count_Lower := PVal.num 2, Count_Upper := PVal.num 8, Freq := PVal.num (1/20)
                Freq_Lower := PVal.num (1/50), Freq_Upper := PVal.num (2/25) }
         Option.none Option.none PVal.na]
      [mkMRow { Unique_Sequence_Name := "nt_2", Sequence := "AAA", Count := PVal.num 5
                Count_Lower := PVal.num 2, Count_Upper := PVal.num 8, Freq := PVal.num (1/20)
                Freq_Lower := PVal.num (1/50), Freq_Upper := PVal.num (2/25) }
         Option.none Option.none PVal.na,
       mkMRow { Unique_Sequence_Name := "nt_3", Sequence := "CCC", Count := PVal.num 5
                Count_Lower := PVal.num 2, Count_Upper := PVal.num 8, Freq := PVal.num (1/20)
                Freq_Lower := PVal.num (1/50), Freq_Upper := PVal.num (2/25) }
         Option.none Option.none PVal.na] ∧
    pandas_sort_values
      [mkMRow { Unique_Sequence_Name := "nt_2", Sequence := "AAA", Count := PVal.num 5
                Count_Lower := PVal.num 2, Count_Upper := PVal.num 8, Freq := PVal.num (1/20)
                Freq_Lower := PVal.num (1/50), Freq_Upper := PVal.num (2/25) }
         Option.none Option.none PVal.na,
       mkMRow { Unique_Sequence_Name := "nt_3", Sequence := "CCC", Count := PVal.num 5
                Count_Lower := PVal.num 2, Count_Upper := PVal.num 8, Freq := PVal.num (1/20)
                Freq_Lower := PVal.num (1/50), Freq_Upper := PVal.num (2/25) }
         Option.none Option.none PVal.na]
      [mkMRow { Unique_Sequence_Name := "nt_3", Sequence := "CCC", Count := PVal.num 5
                Count_Lower := PVal.num 2, Count_Upper := PVal.num 8, Freq := PVal.num (1/20)
                Freq_Lower := PVal.num (1/50), Freq_Upper := PVal.num (2/25) }
         Option.none Option.none PVal.na,
       mkMRow { Unique_Sequence_Name := "nt_2", Sequence := "AAA", Count := PVal.num 5
                Count_Lower := PVal.num 2, Count_Upper := PVal.num 8, Freq := PVal.num (1/20)
                Freq_Lower := PVal.num (1/50), Freq_Upper := PVal.num (2/25) }
         Option.none Option.none PVal.na] ∧
    ([mkMRow { Unique_Sequence_Name := "nt_2", Sequence := "AAA", Count := PVal.num 5
               Count_Lower := PVal.num 2, Count_Upper := PVal.num 8, Freq := PVal.num (1/20)
               Freq_Lower := PVal.num (1/50), Freq_Upper := PVal.num (2/25) }
        Option.none Option.none PVal.na,
      mkMRow { Unique_Sequence_Name := "nt_3", Sequence := "CCC", Count := PVal.num 5
               Count_Lower := PVal.num 2, Count_Upper := PVal.num 8, Freq := PVal.num (1/20)
               Freq_Lower := PVal.num (1/50), Freq_Upper := PVal.num (2/25) }
        Option.none Option.none PVal.na] ≠
     [mkMRow { Unique_Sequence_Name := "nt_3", Sequence := "CCC", Count := PVal.num 5
               Count_Lower := PVal.num 2, Count_Upper := PVal.num 8, Freq := PVal.num (1/20)
               Freq_Lower := PVal.num (1/50), Freq_Upper := PVal.num (2/25) }
        Option.none Option.none PVal.na,
      mkMRow { Unique_Sequence_Name := "nt_2", Sequence := "AAA", Count := PVal.num 5
               Count_Lower := PVal.num 2, Count_Upper := PVal.num 8, Freq := PVal.num (1/20)
               Freq_Lower := PVal.num (1/50), Freq_Upper := PVal.num (2/25) }
        Option.none Option.none PVal.na]) := by
  refine ⟨⟨List.Perm.refl _, ?_⟩, ⟨List.Perm.swap _ _ _, ?_⟩, ?_⟩
  · show List.Chain' _ _
    simp [List.chain'_cons, keyGt, mkMRow]
  · show List.Chain' _ _
    simp [List.chain'_cons, keyGt, mkMRow]
  · decide

theorem mem_merge_data_for_rounds_inv {post preT negT : List CountRec} {row : MRow}
    (h : row ∈ merge_data_for_rounds post (Option.some preT) (Option.some negT)) :
    ∃ p pm nm, p ∈ post ∧ pm ∈ joinMatches true p preT ∧ nm ∈ joinMatches true p negT ∧
      row = mkMRow p pm nm PVal.nan := by
  have h2 : row ∈ merge_rows PVal.na true post (Option.some preT) (Option.some negT) :=
    ((sortByCountPost_perm _).mem_iff).mp h
  simp only [merge_rows, List.mem_flatMap, List.mem_map] at h2
  obtain ⟨p, hp, pm, hpm, nm, hnm, hrow⟩ := h2
  exact ⟨p, pm, nm, hp, hpm, hnm, hrow.symm⟩

theorem joinMatches_eq_none_of_no_seq {p : CountRec} {tbl : List CountRec}
    (h : ∀ r ∈ tbl, p.Sequence ≠ r.Sequence) :
    ∀ m ∈ joinMatches true p tbl, m = Option.none := by
  intro m hm
  unfold joinMatches at hm
  have hnil : tbl.filter (fun r => keyMatch true p r) = [] := by
    rw [List.filter_eq_nil_iff]
    intro r hr hmr
    exact h r hr ((keyMatch_name_iff p r).mp hmr).1
  rw [hnil] at hm
  simpa using hm

/-- If a merged row carries `NaN` in all three negative-control frequency
fields (a left-join miss), then any successfully produced enrichment result
has null `Enr_neg`, `Enr_neg_lower`, `Enr_neg_upper`, `Enr_ratio`,
`Enr_ratio_lower` and `Enr_ratio_upper`: the `NaN` comparisons in the gates
evaluate to `False`. -/
theorem enr_neg_fields_null_of_nan {row : MRow} (h1 : row.Freq_neg = PVal.nan)
    (h2 : row.Freq_Lower_neg = PVal.nan) (h3 : row.Freq_Upper_neg = PVal.nan) :
    ∀ res, process_enrichments row = Except.ok res →
      res.Enr_neg = PVal.none ∧ res.Enr_neg_lower = PVal.none ∧
      res.Enr_neg_upper = PVal.none ∧ res.Enr_ratio = PVal.none ∧
      res.Enr_ratio_lower = PVal.none ∧ res.Enr_ratio_upper = PVal.none := by
  intro res h
  unfold process_enrichments at h
  split at h
  · exact absurd h (by simp)
  · rename_i gate hg
    split at h
    · exact absurd h (by simp)
    · rename_i bounds hb
      split at h
      · exact absurd h (by simp)
      · rename_i enr_post hp
        split at h
        · exact absurd h (by simp)
        · rename_i enr_neg hn
          split at h
          · exact absurd h (by simp)
          · rename_i rpair hr
            split at h
            · exact absurd h (by simp)
            · rename_i ratio hq
              injection h with h
              subst h
              simp only
              cases gate with
              | false =>
                unfold enr_bounds at hb
                simp only [Bool.false_eq_true, if_false, ite_false] at hb
                injection hb with hb
                subst hb
                have hneq : enr_neg = PVal.none := by
                  unfold enr_neg_point at hn
                  cases hnc : row.hasNegCol with
                  | true =>
                    rw [hnc] at hn
                    simp only [truthyGt0, if_true, ite_true] at hn
                    simp only [show (decide ((0:ℚ) < 0)) = false by decide] at hn
                    injection hn with hn
                    exact hn.symm
                  | false =>
                    rw [hnc] at hn
                    simp only [Bool.false_eq_true, if_false, ite_false] at hn
                    injection hn with hn
                    exact hn.symm
                have hrp : rpair = (PVal.none, PVal.none) := by
                  unfold enr_ratio_bounds at hr
                  simp only [truthyGt0] at hr
                  simp only [show (decide ((0:ℚ) < 0)) = false by decide] at hr
                  injection hr with hr
                  exact hr.symm
                have hrat : ratio = PVal.none := by
                  rw [hneq, safe_divide_none_right] at hq
                  injection hq with hq
                  exact hq.symm
                subst hneq
                subst hrp
                subst hrat
                simp
              | true =>
                obtain ⟨q, hql, hqpos⟩ := truthyGt0_eq_ok_true hg
                unfold enr_bounds at hb
                simp only [if_true, ite_true] at hb
                split at hb
                · exact absurd hb (by simp)
                · rename_i epmin hepmin
                  split at hb
                  · exact absurd hb (by simp)
                  · rename_i epmax hepmax
                    by_cases hnc : row.hasNegCol
                    · rw [if_pos hnc] at hb
                      split at hb
                      · exact absurd hb (by simp)
                      · rename_i enmin henmin
                        split at hb
                        · exact absurd hb (by simp)
                        · rename_i enmax henmax
                          have henmax2 : enmax = PVal.nan := by
                            rw [h3, hql, safe_divide_nan_num (ne_of_gt hqpos)] at henmax
                            injection henmax with henmax
                            exact henmax.symm
                          injection hb with hb
                          subst hb
                          subst henmax2
                          have hneq : enr_neg = PVal.none := by
                            unfold enr_neg_point at hn
                            rw [hnc] at hn
                            simp only [truthyGt0, if_true, ite_true] at hn
                            injection hn with hn
                            exact hn.symm
                          have hrp : rpair = (PVal.none, PVal.none) := by
                            unfold enr_ratio_bounds at hr
                            simp only [truthyGt0] at hr
                            injection hr with hr
                            exact hr.symm
                          have hrat : ratio = PVal.none := by
                            rw [hneq, safe_divide_none_right] at hq
                            injection hq with hq
                            exact hq.symm
                          subst hneq
                          subst hrp
                          subst hrat
                          simp
                    · rw [if_neg hnc] at hb
                      injection hb with hb
                      subst hb
                      unfold enr_ratio_bounds at hr
                      simp only [truthyGt0] at hr
                      exact absurd hr (by simp)

/-- Claim C7 (amended): for a round whose negative-control table exists but
does not contain a given post-selection sequence, the merged row for that
sequence is still emitted with every `_neg` column holding the `NaN`
missing-value sentinel — not the number 0 — and any enrichment result
computed from it has `Enr_neg`, `Enr_neg_lower`, `Enr_neg_upper`,
`Enr_ratio`, `Enr_ratio_lower` and `Enr_ratio_upper` all null.  (When the
whole negative-control table is absent, the gui merger instead backfills
`pd.NA` and the calculator raises — see
`merge_missing_neg_table_raises_cex`.) -/
theorem merge_missing_neg_row (post preT negT : List CountRec) (row : MRow)
    (hrow : row ∈ merge_data_for_rounds post (Option.some preT) (Option.some negT))
    (hmiss : ∀ r ∈ negT, row.Sequence ≠ r.Sequence) :
    (row.Count_neg = PVal.nan ∧ row.Count_Lower_neg = PVal.nan ∧
     row.Count_Upper_neg = PVal.nan ∧ row.Freq_neg = PVal.nan ∧
     row.Freq_Lower_neg = PVal.nan ∧ row.Freq_Upper_neg = PVal.nan ∧
     row.Count_neg ≠ PVal.num 0) ∧
    (∀ res, process_enrichments row = Except.ok res →
      res.Enr_neg = PVal.none ∧ res.Enr_neg_lower = PVal.none ∧
      res.Enr_neg_upper = PVal.none ∧ res.Enr_ratio = PVal.none ∧
      res.Enr_ratio_lower = PVal.none ∧ res.Enr_ratio_upper = PVal.none) := by
  obtain ⟨p, pm, nm, hp, hpm, hnm, hrow2⟩ := mem_merge_data_for_rounds_inv hrow
  have hseq : row.Sequence = p.Sequence := by rw [hrow2]; rfl
  have hnone : nm = Option.none := by
    refine joinMatches_eq_none_of_no_seq ?_ nm hnm
    intro r hr
    rw [← hseq]
    exact hmiss r hr
  subst hnone
  subst hrow2
  constructor
  · exact ⟨rfl, rfl, rfl, rfl, rfl, rfl, by simp [mkMRow, fld]⟩
  · exact enr_neg_fields_null_of_nan rfl rfl rfl

/-- Counterexample for C7 as stated: when the negative-control table is
absent for the whole round (the second way a sequence can "have no
negative-control data"), the gui merger emits the row with `pd.NA` — not
`NaN` — in every `_pre` and `_neg` column (the pre join is discarded by the
merger's `else` branch), and `process_enrichments` then raises `TypeError`
(truthiness of `pd.NA`) instead of producing null `Enr_neg` fields, so no
enrichment row is emitted at all. -/
theorem merge_missing_neg_table_raises_cex :
    merge_data_for_rounds
        [{ Unique_Sequence_Name := "nt_2", Sequence := "AAA", Count := PVal.num 9
           Count_Lower := PVal.num 4, Count_Upper := PVal.num 15, Freq := PVal.num (9/100)
           Freq_Lower := PVal.num (1/25), Freq_Upper := PVal.num (3/20) }]
        (Option.some
          [{ Unique_Sequence_Name := "nt_2", Sequence := "AAA", Count := PVal.num 3
             Count_Lower := PVal.num 1, Count_Upper := PVal.num 6, Freq := PVal.num (3/100)
             Freq_Lower := PVal.num (1/100), Freq_Upper := PVal.num (3/50) }])
        Option.none =
      [mkMRow
        { Unique_Sequence_Name := "nt_2", Sequence := "AAA", Count := PVal.num 9
          Count_Lower := PVal.num 4, Count_Upper := PVal.num 15, Freq := PVal.num (9/100)
          Freq_Lower := PVal.num (1/25), Freq_Upper := PVal.num (3/20) }
        Option.none Option.none PVal.na] ∧
    process_enrichments
        (mkMRow
          { Unique_Sequence_Name := "nt_2", Sequence := "AAA", Count := PVal.num 9
            Count_Lower := PVal.num 4, Count_Upper := PVal.num 15, Freq := PVal.num (9/100)
            Freq_Lower := PVal.num (1/25), Freq_Upper := PVal.num (3/20) }
          Option.none Option.none PVal.na) =
      Except.error PyErr.typeError := by
  constructor
  · rfl
  · rfl

/-- Witness for C7: a concrete round whose neg table lacks the post sequence
"AAA"; the merged row carries the `NaN` sentinel (not 0) in `Count_neg`, and
the enrichment result computed from the row has null `Enr_neg`. -/
theorem merge_missing_neg_row_witness :
    (mkMRow
      { Unique_Sequence_Name := "nt_2", Sequence := "AAA", Count := PVal.num 9
        Count_Lower := PVal.num 4, Count_Upper := PVal.num 15, Freq := PVal.num 10
        Freq_Lower := PVal.num 10, Freq_Upper := PVal.num 20 }
      (Option.some
        { Unique_Sequence_Name := "nt_2", Sequence := "AAA", Count := PVal.num 3
          Count_Lower := PVal.num 1, Count_Upper := PVal.num 6, Freq := PVal.num 5
          Freq_Lower := PVal.num 0, Freq_Upper := PVal.num 5 })
      Option.none PVal.nan).Count_neg = PVal.nan ∧
    (mkMRow
      { Unique_Sequence_Name := "nt_2", Sequence := "AAA", Count := PVal.num 9
        Count_Lower := PVal.num 4, Count_Upper := PVal.num 15, Freq := PVal.num 10
        Freq_Lower := PVal.num 10, Freq_Upper := PVal.num 20 }
      (Option.some
        { Unique_Sequence_Name := "nt_2", Sequence := "AAA", Count := PVal.num 3
          Count_Lower := PVal.num 1, Count_Upper := PVal.num 6, Freq := PVal.num 5
          Freq_Lower := PVal.num 0, Freq_Upper := PVal.num 5 })
      Option.none PVal.nan).Count_neg ≠ PVal.num 0 ∧
    process_enrichments
        (mkMRow
          { Unique_Sequence_Name := "nt_2", Sequence := "AAA", Count := PVal.num 9
            Count_Lower := PVal.num 4, Count_Upper := PVal.num 15, Freq := PVal.num 10
            Freq_Lower := PVal.num 10, Freq_Upper := PVal.num 20 }
          (Option.some
            { Unique_Sequence_Name := "nt_2", Sequence := "AAA", Count := PVal.num 3
              Count_Lower := PVal.num 1, Count_Upper := PVal.num 6, Freq := PVal.num 5
              Freq_Lower := PVal.num 0, Freq_Upper := PVal.num 5 })
          Option.none PVal.nan) =
      Except.ok
        { Sequence := "AAA"
          Enr_post := PVal.none, Enr_post_lower := PVal.none
          Enr_post_upper := PVal.none, Enr_neg := PVal.none
          Enr_neg_lower := PVal.none, Enr_neg_upper := PVal.none
          Enr_ratio := PVal.none, Enr_ratio_lower := PVal.none
          Enr_ratio_upper := PVal.none } ∧
    ({ Sequence := "AAA"
       Enr_post := PVal.none, Enr_post_lower := PVal.none
       Enr_post_upper := PVal.none, Enr_neg := PVal.none
       Enr_neg_lower := PVal.none, Enr_neg_upper := PVal.none
       Enr_ratio := PVal.none, Enr_ratio_lower := PVal.none
       Enr_ratio_upper := PVal.none } : EnrichmentResult).Enr_neg = PVal.none := by
  have hok :
      process_enrichments
          (mkMRow
            { Unique_Sequence_Name := "nt_2", Sequence := "AAA", Count := PVal.num 9
              Count_Lower := PVal.num 4, Count_Upper := PVal.num 15, Freq := PVal.num 10
              Freq_Lower := PVal.num 10, Freq_Upper := PVal.num 20 }
            (Option.some
              { Unique_Sequence_Name := "nt_2", Sequence := "AAA", Count := PVal.num 3
                Count_Lower := PVal.num 1, Count_Upper := PVal.num 6, Freq := PVal.num 5
                Freq_Lower := PVal.num 0, Freq_Upper := PVal.num 5 })
            Option.none PVal.nan) =
        Except.ok
          { Sequence := "AAA"
            Enr_post := PVal.none, Enr_post_lower := PVal.none
            Enr_post_upper := PVal.none, Enr_neg := PVal.none
            Enr_neg_lower := PVal.none, Enr_neg_upper := PVal.none
            Enr_ratio := PVal.none, Enr_ratio_lower := PVal.none
            Enr_ratio_upper := PVal.none } := by rfl
  have h :=
    merge_missing_neg_row
      [{ Unique_Sequence_Name := "nt_2", Sequence := "AAA", Count := PVal.num 9
         Count_Lower := PVal.num 4, Count_Upper := PVal.num 15, Freq := PVal.num 10
         Freq_Lower := PVal.num 10, Freq_Upper := PVal.num 20 }]
      [{ Unique_Sequence_Name := "nt_2", Sequence := "AAA", Count := PVal.num 3
         Count_Lower := PVal.num 1, Count_Upper := PVal.num 6, Freq := PVal.num 5
         Freq_Lower := PVal.num 0, Freq_Upper := PVal.num 5 }]
      [{ Unique_Sequence_Name := "nt_5", Sequence := "GGG", Count := PVal.num 2
         Count_Lower := PVal.num 1, Count_Upper := PVal.num 4, Freq := PVal.num 1
         Freq_Lower := PVal.num 1, Freq_Upper := PVal.num 1 }]
      (mkMRow
        { Unique_Sequence_Name := "nt_2", Sequence := "AAA", Count := PVal.num 9
          Count_Lower := PVal.num 4, Count_Upper := PVal.num 15, Freq := PVal.num 10
          Freq_Lower := PVal.num 10, Freq_Upper := PVal.num 20 }
        (Option.some
          { Unique_Sequence_Name := "nt_2", Sequence := "AAA", Count := PVal.num 3
            Count_Lower := PVal.num 1, Count_Upper := PVal.num 6, Freq := PVal.num 5
            Freq_Lower := PVal.num 0, Freq_Upper := PVal.num 5 })
        Option.none PVal.nan)
      (by decide) (by decide)
  exact ⟨h.1.1, h.1.2.2.2.2.2.2, hok, (h.2 _ hok).1⟩

theorem truthyGt0_wf {v : PVal} (h : numOrNan v) : ∃ b, truthyGt0 v = Except.ok b := by
  rcases h with h | ⟨q, h⟩ <;> subst h
  · exact ⟨false, rfl⟩
  · exact ⟨decide (0 < q), rfl⟩

theorem safe_divide_wf {a b : PVal} (ha : numOrNan a) (hb : numOrNan b) (d : ℚ) :
    ∃ v, safe_divide a b d = Except.ok v ∧ numOrNan v := by
  rcases ha with ha | ⟨x, ha⟩ <;> rcases hb with hb | ⟨y, hb⟩ <;> subst ha <;> subst hb
  · exact ⟨PVal.nan, by simp [safe_divide, pyDiv], Or.inl rfl⟩
  · by_cases hy : y = 0
    · exact ⟨PVal.num d, by simp [safe_divide, pyDiv, hy], Or.inr ⟨d, rfl⟩⟩
    · exact ⟨PVal.nan, by simp [safe_divide, pyDiv, hy], Or.inl rfl⟩
  · exact ⟨PVal.nan, by simp [safe_divide, pyDiv], Or.inl rfl⟩
  · by_cases hy : y = 0
    · exact ⟨PVal.num d, by simp [safe_divide, pyDiv, hy], Or.inr ⟨d, rfl⟩⟩
    · exact ⟨PVal.num (x / y), by simp [safe_divide, pyDiv, hy], Or.inr ⟨x / y, rfl⟩⟩

theorem enr_bounds_wf {row : MRow} (h : MRowWF row) (gate : Bool) :
    ∃ b1 b2 b3 b4, enr_bounds row gate = Except.ok (b1, b2, b3, b4) ∧
      numOrNan b1 ∧ numOrNan b2 ∧ numOrNan b3 ∧ numOrNan b4 := by
  obtain ⟨hneg, _, hflp, hfup, _, hflpre, hfupre, _, hfln, hfun⟩ := h
  cases gate with
  | false =>
    refine ⟨PVal.num 0, PVal.num 0, PVal.num 0, PVal.num 0, rfl, ?_, ?_, ?_, ?_⟩ <;>
      exact Or.inr ⟨0, rfl⟩
  | true =>
    obtain ⟨epmin, hepmin, hw1⟩ := safe_divide_wf hflp hfupre 0
    obtain ⟨epmax, hepmax, hw2⟩ := safe_divide_wf hfup hflpre 0
    obtain ⟨enmin, henmin, hw3⟩ := safe_divide_wf hfln hfupre 0
    obtain ⟨enmax, henmax, hw4⟩ := safe_divide_wf hfun hflpre 0
    refine ⟨epmin, epmax, enmin, enmax, ?_, hw1, hw2, hw3, hw4⟩
    simp only [enr_bounds, if_true, ite_true, hepmin, hepmax, hneg, henmin, henmax]

theorem enr_post_point_wf (row : MRow) (bounds : PVal × PVal × PVal × PVal)
    (h2 : numOrNan bounds.2.1) :
    ∃ v, enr_post_point row bounds = Except.ok v := by
  obtain ⟨g, hg⟩ := truthyGt0_wf h2
  cases g with
  | false => exact ⟨PVal.none, by simp only [enr_post_point, hg]⟩
  | true =>
    obtain ⟨v, hv⟩ := safe_divide_total row.Freq_post row.Freq_pre 0
    exact ⟨v, by simp only [enr_post_point, hg, hv]⟩

theorem enr_neg_point_wf (row : MRow) (bounds : PVal × PVal × PVal × PVal)
    (h4 : numOrNan bounds.2.2.2) :
    ∃ v, enr_neg_point row bounds = Except.ok v := by
  cases hnc : row.hasNegCol with
  | false => exact ⟨PVal.none, by simp only [enr_neg_point, hnc, Bool.false_eq_true, if_false, ite_false]⟩
  | true =>
    obtain ⟨g, hg⟩ := truthyGt0_wf h4
    cases g with
    | false => exact ⟨PVal.none, by simp only [enr_neg_point, hnc, if_true, ite_true, hg]⟩
    | true =>
      obtain ⟨v, hv⟩ := safe_divide_total row.Freq_neg row.Freq_pre 0
      exact ⟨v, by simp only [enr_neg_point, hnc, if_true, ite_true, hg, hv]⟩

theorem enr_ratio_bounds_wf (bounds : PVal × PVal × PVal × PVal)
    (h3 : numOrNan bounds.2.2.1) (h4 : numOrNan bounds.2.2.2) :
    ∃ v, enr_ratio_bounds bounds = Except.ok v := by
  obtain ⟨g4, hg4⟩ := truthyGt0_wf h4
  cases g4 with
  | false => exact ⟨(PVal.none, PVal.none), by simp only [enr_ratio_bounds, hg4]⟩
  | true =>
    obtain ⟨g3, hg3⟩ := truthyGt0_wf h3
    cases g3 with
    | false => exact ⟨(PVal.none, PVal.none), by simp only [enr_ratio_bounds, hg4, hg3]⟩
    | true =>
      obtain ⟨rmin, hrmin⟩ := safe_divide_total bounds.1 bounds.2.2.2 0
      obtain ⟨rmax, hrmax⟩ := safe_divide_total bounds.2.1 bounds.2.2.1 0
      exact ⟨(rmin, rmax), by simp only [enr_ratio_bounds, hg4, hg3, hrmin, hrmax]⟩

/-- `process_enrichments` returns a result, without raising, on every row
whose frequency cells are floats (finite or `NaN`) and whose `Count_neg`
column exists. -/
theorem process_enrichments_total_of_wf {row : MRow} (h : MRowWF row) :
    ∃ res, process_enrichments row = Except.ok res := by
  obtain ⟨gate, hg⟩ := truthyGt0_wf h.2.2.2.2.2.1
  obtain ⟨b1, b2, b3, b4, hb, hw1, hw2, hw3, hw4⟩ := enr_bounds_wf h gate
  obtain ⟨ep, hep⟩ := enr_post_point_wf row (b1, b2, b3, b4) hw2
  obtain ⟨en, hen⟩ := enr_neg_point_wf row (b1, b2, b3, b4) hw4
  obtain ⟨rp, hrp⟩ := enr_ratio_bounds_wf (b1, b2, b3, b4) hw3 hw4
  obtain ⟨rt, hrt⟩ := safe_divide_total ep en 0
  refine ⟨{ Sequence := row.Sequence, Enr_post := ep
            Enr_post_lower := if ep = PVal.none then PVal.none else b1
            Enr_post_upper := if ep = PVal.none then PVal.none else b2
            Enr_neg := en
            Enr_neg_lower := if en = PVal.none then PVal.none else b3
            Enr_neg_upper := if en = PVal.none then PVal.none else b4
            Enr_ratio := rt, Enr_ratio_lower := rp.1, Enr_ratio_upper := rp.2 }, ?_⟩
  simp only [process_enrichments, hg, hb, hep, hen, hrp, hrt]

theorem mem_merge_rows_somesome_inv {sent : PVal} {j : Bool} {post preT negT : List CountRec}
    {row : MRow} (h : row ∈ merge_rows sent j post (Option.some preT) (Option.some negT)) :
    ∃ p pm nm, p ∈ post ∧ pm ∈ joinMatches j p preT ∧ nm ∈ joinMatches j p negT ∧
      row = mkMRow p pm nm PVal.nan := by
  simp only [merge_rows, List.mem_flatMap, List.mem_map] at h
  obtain ⟨p, hp, pm, hpm, nm, hnm, hrow⟩ := h
  exact ⟨p, pm, nm, hp, hpm, hnm, hrow.symm⟩

theorem joinMatches_mem_some {j : Bool} {p : CountRec} {tbl : List CountRec}
    {m : Option CountRec} (hm : m ∈ joinMatches j p tbl) :
    ∀ r, m = Option.some r → r ∈ tbl := by
  intro r hr
  subst hr
  unfold joinMatches at hm
  by_cases he : (tbl.filter (fun x => keyMatch j p x)).isEmpty
  · rw [if_pos he] at hm
    simp at hm
  · rw [if_neg he] at hm
    obtain ⟨x, hx, hx2⟩ := List.mem_map.mp hm
    obtain ⟨⟩ := Option.some.inj hx2
    exact List.mem_of_mem_filter hx

theorem mkMRow_wf {p : CountRec} {pm nm : Option CountRec} (hp : CountRecWF p)
    (hpm : ∀ r, pm = Option.some r → CountRecWF r)
    (hnm : ∀ r, nm = Option.some r → CountRecWF r) :
    MRowWF (mkMRow p pm nm PVal.nan) := by
  obtain ⟨hp1, hp2, hp3⟩ := hp
  refine ⟨rfl, hp1, hp2, hp3, ?_, ?_, ?_, ?_, ?_, ?_⟩ <;>
    simp only [mkMRow, fld]
  · cases pm with
    | none => exact Or.inl rfl
    | some r => exact (hpm r rfl).1
  · cases pm with
    | none => exact Or.inl rfl
    | some r => exact (hpm r rfl).2.1
  · cases pm with
    | none => exact Or.inl rfl
    | some r => exact (hpm r rfl).2.2
  · cases nm with
    | none => exact Or.inl rfl
    | some r => exact (hnm r rfl).1
  · cases nm with
    | none => exact Or.inl rfl
    | some r => exact (hnm r rfl).2.1
  · cases nm with
    | none => exact Or.inl rfl
    | some r => exact (hnm r rfl).2.2

/-- Every row the `modified_counts.py` merger (`np.nan` sentinel) produces
from float-valued inputs is well formed: its frequency cells are floats and
its `_neg` columns exist. -/
theorem merge_data_for_rounds_mc_wf {post : List CountRec} {pre neg : Option (List CountRec)}
    (hpost : ∀ r ∈ post, CountRecWF r)
    (hpre : ∀ t, pre = Option.some t → ∀ r ∈ t, CountRecWF r)
    (hneg : ∀ t, neg = Option.some t → ∀ r ∈ t, CountRecWF r) :
    ∀ row ∈ merge_data_for_rounds_mc post pre neg, MRowWF row := by
  intro row hrow
  have h2 : row ∈ merge_rows PVal.nan false post pre neg :=
    ((sortByCountPost_perm _).mem_iff).mp hrow
  cases pre with
  | some preT =>
    cases neg with
    | some negT =>
      obtain ⟨p, pm, nm, hp, hpm, hnm, hrow2⟩ := mem_merge_rows_somesome_inv h2
      subst hrow2
      exact mkMRow_wf (hpost p hp)
        (fun r hr => hpre preT rfl r (joinMatches_mem_some hpm r hr))
        (fun r hr => hneg negT rfl r (joinMatches_mem_some hnm r hr))
    | none =>
      simp only [merge_rows, List.mem_map] at h2
      obtain ⟨p, hp, hrow2⟩ := h2
      subst hrow2
      exact mkMRow_wf (hpost p hp) (fun r hr => by cases hr) (fun r hr => by cases hr)
  | none =>
    simp only [merge_rows, List.mem_map] at h2
    obtain ⟨p, hp, hrow2⟩ := h2
    subst hrow2
    exact mkMRow_wf (hpost p hp) (fun r hr => by cases hr) (fun r hr => by cases hr)

/-- Claim C10 (amended): for the `modified_counts.py` variant, whose merger
materializes the `_pre`/`_neg` columns with the `np.nan` sentinel,
`process_enrichments` is total on every merged row, for any combination of
present or absent pre-selection and negative-control inputs: missing data is
`NaN`, whose comparisons are false, so no branch raises.  (In the
`easy_diver_2_gui` variant the backfill sentinel is `pd.NA` instead, whose
truthiness raises — see `process_enrichments_na_raises_cex`.) -/
theorem process_enrichments_total_on_merge_mc (post : List CountRec)
    (pre neg : Option (List CountRec))
    (hpost : ∀ r ∈ post, CountRecWF r)
    (hpre : ∀ t, pre = Option.some t → ∀ r ∈ t, CountRecWF r)
    (hneg : ∀ t, neg = Option.some t → ∀ r ∈ t, CountRecWF r) :
    ∀ row ∈ merge_data_for_rounds_mc post pre neg,
      ∃ res, process_enrichments row = Except.ok res := by
  intro row hrow
  exact process_enrichments_total_of_wf
    (merge_data_for_rounds_mc_wf hpost hpre hneg row hrow)

/-- Counterexample for C10 as stated: in the `easy_diver_2_gui` variant, a
round with no pre and no neg table yields merged rows whose `_pre`/`_neg`
columns hold `pd.NA`; on such a row `process_enrichments` raises `TypeError`
(`bool(pd.NA)` in the `Freq_Lower_pre > 0` gate) instead of returning a
result, so the claimed totality fails for merged rows of that variant. -/
theorem process_enrichments_na_raises_cex :
    merge_data_for_rounds
        [{ Unique_Sequence_Name := "nt_7", Sequence := "TTTT", Count := PVal.num 6
           Count_Lower := PVal.num 2, Count_Upper := PVal.num 11, Freq := PVal.num 6
           Freq_Lower := PVal.num 2, Freq_Upper := PVal.num 11 }]
        Option.none Option.none =
      [mkMRow
        { Unique_Sequence_Name := "nt_7", Sequence := "TTTT", Count := PVal.num 6
          Count_Lower := PVal.num 2, Count_Upper := PVal.num 11, Freq := PVal.num 6
          Freq_Lower := PVal.num 2, Freq_Upper := PVal.num 11 }
        Option.none Option.none PVal.na] ∧
    process_enrichments
        (mkMRow
          { Unique_Sequence_Name := "nt_7", Sequence := "TTTT", Count := PVal.num 6
            Count_Lower := PVal.num 2, Count_Upper := PVal.num 11, Freq := PVal.num 6
            Freq_Lower := PVal.num 2, Freq_Upper := PVal.num 11 }
          Option.none Option.none PVal.na) =
      Except.error PyErr.typeError := by
  exact ⟨rfl, rfl⟩

/-- Witness for C10: the totality theorem applied to a concrete round with
only a post table (pre and neg absent). -/
theorem process_enrichments_total_on_merge_mc_witness :
    ∃ res,
      process_enrichments
          (mkMRow
            { Unique_Sequence_Name := "nt_7", Sequence := "TTTT", Count := PVal.num 6
              Count_Lower := PVal.num 2, Count_Upper := PVal.num 11, Freq := PVal.num 6
              Freq_Lower := PVal.num 2, Freq_Upper := PVal.num 11 }
            Option.none Option.none PVal.nan) =
        Except.ok res := by
  refine process_enrichments_total_on_merge_mc
    [{ Unique_Sequence_Name := "nt_7", Sequence := "TTTT", Count := PVal.num 6
       Count_Lower := PVal.num 2, Count_Upper := PVal.num 11, Freq := PVal.num 6
       Freq_Lower := PVal.num 2, Freq_Upper := PVal.num 11 }]
    Option.none Option.none ?_ ?_ ?_ _ ?_
  · intro r hr
    rw [List.mem_singleton] at hr
    subst hr
    exact ⟨Or.inr ⟨6, rfl⟩, Or.inr ⟨2, rfl⟩, Or.inr ⟨11, rfl⟩⟩
  · intro t ht
    cases ht
  · intro t ht
    cases ht
  · decide

/-- Counterexample for C2 as stated: the cache key is the observed count
alone.  After resampling `(total=500, count=7)`, a call with the same count
but a different total (`total=1000`) hits the cache and returns the interval
computed from total 500, with no new resampling logged — the `(1000, 7)`
pair is NOT resampled independently, although its own interval would differ
(witnessed by a `sampleCI` for which the two keys give different
intervals). -/
theorem bootstrap_cache_key_ignores_total_cex :
    bootstrap_counts_binomial (fun t c => ((t : ℚ), (c : ℚ))) 500 7 { cache := [], log := [] } =
      Except.ok ((500, 7), { cache := [(7, (500, 7))], log := [(500, 7)] }) ∧
    bootstrap_counts_binomial (fun t c => ((t : ℚ), (c : ℚ))) 1000 7
        { cache := [(7, (500, 7))], log := [(500, 7)] } =
      Except.ok ((500, 7), { cache := [(7, (500, 7))], log := [(500, 7)] }) ∧
    ((1000 : ℚ), (7 : ℚ)) ≠ ((500 : ℚ), (7 : ℚ)) := by
  refine ⟨rfl, rfl, by decide⟩

/-- Claim C2 (amended): the engine memoizes on the observed count alone —
after any successful call with observed count `c`, every further call with
count `c` and ANY total (equal or different) is a cache hit: it returns the
same interval and leaves the state unchanged (no second resampling), so each
count key is resampled at most once, but distinct totals sharing a count are
NOT resampled independently. -/
theorem bootstrap_cache_by_count_only (sampleCI : ℕ → ℕ → ℚ × ℚ) (t1 t2 c : ℕ)
    (st st1 : BootState) (iv : ℚ × ℚ)
    (h : bootstrap_counts_binomial sampleCI t1 c st = Except.ok (iv, st1)) :
    bootstrap_counts_binomial sampleCI t2 c st1 = Except.ok (iv, st1) := by
  have hlook : st1.cache.lookup c = Option.some iv := by
    unfold bootstrap_counts_binomial at h
    split at h
    · rename_i iv0 hl
      injection h with h2
      have h1 : iv0 = iv := congrArg Prod.fst h2
      have h3 : st = st1 := congrArg Prod.snd h2
      rw [← h3, hl, h1]
    · rename_i hl
      split at h
      · cases h
      · injection h with h2
        have h1 : sampleCI t1 c = iv := congrArg Prod.fst h2
        have h3 : st1 = { cache := (c, sampleCI t1 c) :: st.cache
                          log := st.log ++ [(t1, c)] } := (congrArg Prod.snd h2).symm
        rw [h3]
        simp [List.lookup, h1]
  unfold bootstrap_counts_binomial
  rw [hlook]

/-- Witness for C2: after one resampling for count 3 out of total 200, a call
with count 3 out of total 900 returns the cached total-200 interval with the
state unchanged. -/
theorem bootstrap_cache_by_count_only_witness :
    bootstrap_counts_binomial (fun t c => ((t : ℚ), (c : ℚ))) 900 3
        { cache := [(3, (200, 3))], log := [(200, 3)] } =
      Except.ok ((200, 3), { cache := [(3, (200, 3))], log := [(200, 3)] }) :=
  bootstrap_cache_by_count_only (fun t c => ((t : ℚ), (c : ℚ))) 200 900 3
    { cache := [], log := [] } { cache := [(3, (200, 3))], log := [(200, 3)] } (200, 3) rfl

/-- Counterexample for C3 as stated: at `observed == 0, total == 0` with an
empty cache, both bootstrap variants raise on the Binomial probability
parameter `count_seq / total_counts`; neither returns the degenerate `[0,0]`
interval, because no `total == 0` special case exists in the code. -/
theorem bootstrap_degenerate_no_special_case_cex :
    bootstrap_counts_binomial (fun t c => ((t : ℚ), (c : ℚ))) 0 0 { cache := [], log := [] } =
      Except.error PyErr.zeroDivisionError ∧
    bootstrap_counts_binomial (fun t c => ((t : ℚ), (c : ℚ))) 0 0 { cache := [], log := [] } ≠
      Except.ok ((0, 0), { cache := [], log := [] }) ∧
    bootstrap_counts_binomial_nc (fun t c => ((t : ℚ), (c : ℚ))) 0 0 =
      Except.error PyErr.zeroDivisionError := by
  have h1 : bootstrap_counts_binomial (fun t c => ((t : ℚ), (c : ℚ))) 0 0
      { cache := [], log := [] } = Except.error PyErr.zeroDivisionError := rfl
  refine ⟨h1, ?_, rfl⟩
  rw [h1]
  simp

/-- Claim C3 (amended): for `observed == 0, total == 0` the engine raises on
the division in the Binomial parameter whenever the cache has no entry for
count 0 (and the uncached variant always raises for `total == 0`); there is
no inline degenerate-interval special case — the only way a `total == 0`
call returns without resampling is a prior cache hit on the same observed
count. -/
theorem bootstrap_degenerate_total_zero_raises (sampleCI : ℕ → ℕ → ℚ × ℚ) (st : BootState)
    (h : st.cache.lookup 0 = Option.none) :
    bootstrap_counts_binomial sampleCI 0 0 st = Except.error PyErr.zeroDivisionError ∧
    (∀ c : ℕ, bootstrap_counts_binomial_nc sampleCI 0 c = Except.error PyErr.zeroDivisionError) ∧
    (∀ iv : ℚ × ℚ, st.cache.lookup 0 = Option.some iv →
      bootstrap_counts_binomial sampleCI 0 0 st = Except.ok (iv, st)) := by
  refine ⟨?_, ?_, ?_⟩
  · unfold bootstrap_counts_binomial
    rw [h]
    rfl
  · intro c
    rfl
  · intro iv hiv
    rw [h] at hiv
    cases hiv

/-- Witness for C3: the amended behaviour at the degenerate input with an
empty cache. -/
theorem bootstrap_degenerate_total_zero_raises_witness :
    bootstrap_counts_binomial (fun t c => ((t * t : ℚ), (c : ℚ))) 0 0
        { cache := [], log := [] } = Except.error PyErr.zeroDivisionError ∧
    bootstrap_counts_binomial_nc (fun t c => ((t * t : ℚ), (c : ℚ))) 0 4 =
      Except.error PyErr.zeroDivisionError :=
  ⟨(bootstrap_degenerate_total_zero_raises (fun t c => ((t * t : ℚ), (c : ℚ)))
      { cache := [], log := [] } rfl).1,
   (bootstrap_degenerate_total_zero_raises (fun t c => ((t * t : ℚ), (c : ℚ)))
      { cache := [], log := [] } rfl).2.1 4⟩

/-- Counterexample for C4 as stated: a bootstrap sample vector of 25 zeros
and 975 ones (a possible outcome of 1000 Binomial draws) has 2.5th
percentile `0.975`, which `np.around` takes to `0.98` — not exactly `0`, so
`replace(0, 1)` passes it through and the loaded record for an observed
count of 1 has `0 < Count_Lower < 1`, violating `count_lower ≥ 1` for
`observed > 0`; the `seq_names_and_bootstrap.py` variant then truncates it
with `astype(int)` to exactly `0`. -/
theorem count_lower_not_clamped_cex :
    bootstrap_ci_from_samples 1000 (fun i => if i < 25 then 0 else 1) = (49/50, 1) ∧
    (easy_diver_counts_row 1 1000 (49/50, 1)).Count_Lower = 49/50 ∧
    (0 : ℚ) < 49/50 ∧ (49/50 : ℚ) < 1 ∧
    0 < (easy_diver_counts_row 1 1000 (49/50, 1)).Count ∧
    (easy_diver_counts_row_sn 1 1000 (49/50, 1)).Count_Lower = 0 := by
  refine ⟨?_, by norm_num [easy_diver_counts_row], by norm_num, by norm_num,
    by norm_num [easy_diver_counts_row], ?_⟩
  · have h3 : np_percentile 1000 (fun i => if i < 25 then 0 else 1) (5/2) = 39/40 := by
      unfold np_percentile
      have ha : ((5:ℚ)/2) / 100 * (((1000:ℕ) : ℚ) - 1) = 999/40 := by norm_num
      rw [ha]
      have hb : Int.floor ((999:ℚ)/40) = 24 := by norm_num [Int.floor_eq_iff]
      rw [hb]
      norm_num [show Int.toNat 24 = 24 from rfl]
    have h4 : np_percentile 1000 (fun i => if i < 25 then 0 else 1) (195/2) = 1 := by
      unfold np_percentile
      have ha : ((195:ℚ)/2) / 100 * (((1000:ℕ) : ℚ) - 1) = 38961/40 := by norm_num
      rw [ha]
      have hb : Int.floor ((38961:ℚ)/40) = 974 := by norm_num [Int.floor_eq_iff]
      rw [hb]
      norm_num [show Int.toNat 974 = 974 from rfl]
    have h5 : np_around2 (39/40) = 49/50 := by
      have hf : Int.floor ((100:ℚ) * (39/40)) = 97 := by
        norm_num [Int.floor_eq_iff]
      rw [np_around2, roundHalfEven, hf]
      norm_num
    have h6 : np_around2 1 = 1 := by
      have hf : Int.floor ((100:ℚ) * 1) = 100 := by
        norm_num
      rw [np_around2, roundHalfEven, hf]
      norm_num
    rw [bootstrap_ci_from_samples, h3, h4, h5, h6]
  · norm_num [easy_diver_counts_row_sn, Int.floor_eq_iff]

/-- Claim C4 (amended): in the loader's post-processing, `Count_Lower` is
never exactly `0` (the exact value `0` is replaced by `1`), so a `[0, 0]`
interval never occurs in a produced CountRecord; and `count_lower ≥ 1` holds
whenever the bootstrap lower percentile is a whole number (the only values
`replace(0, 1)` cannot leave below 1).  For `observed == 0, total == 0` no
record is produced at all — the bootstrap engine raises (see
`bootstrap_degenerate_total_zero_raises`) — so neither direction of the
claimed "[0,0] iff observed == 0 and total == 0" is realized. -/
theorem count_lower_replace_zero (count total : ℕ) (l u : ℚ) :
    ((∃ n : ℕ, l = (n : ℚ)) → 1 ≤ (easy_diver_counts_row count total (l, u)).Count_Lower) ∧
    ((easy_diver_counts_row count total (l, u)).Count_Lower ≠ 0) ∧
    (¬((easy_diver_counts_row count total (l, u)).Count_Lower = 0 ∧
       (easy_diver_counts_row count total (l, u)).Count_Upper = 0)) := by
  have h2 : (easy_diver_counts_row count total (l, u)).Count_Lower ≠ 0 := by
    simp only [easy_diver_counts_row]
    by_cases hl : l = 0
    · rw [if_pos hl]
      norm_num
    · rw [if_neg hl]
      exact hl
  refine ⟨?_, h2, fun h => h2 h.1⟩
  rintro ⟨n, rfl⟩
  simp only [easy_diver_counts_row]
  by_cases hn : (n : ℚ) = 0
  · rw [if_pos hn]
  · rw [if_neg hn]
    have hn2 : 1 ≤ n := by
      rcases Nat.eq_zero_or_pos n with h | h
      · subst h
        simp at hn
      · exact h
    exact_mod_cast hn2

/-- Witness for C4: the amended guarantees evaluated at a record with an
integral bootstrap lower bound of 3 for an observed count of 5. -/
theorem count_lower_replace_zero_witness :
    1 ≤ (easy_diver_counts_row 5 100 (3, 7)).Count_Lower ∧
    (easy_diver_counts_row 5 100 (3, 7)).Count_Lower ≠ 0 :=
  ⟨(count_lower_replace_zero 5 100 3 7).1 ⟨3, by norm_num⟩,
   (count_lower_replace_zero 5 100 3 7).2.1⟩

theorem digits58Aux_eq : ∀ (fuel n : ℕ), n ≤ fuel → digits58Aux fuel n = Nat.digits 58 n := by
  intro fuel
  induction fuel with
  | zero =>
    intro n h
    have hn : n = 0 := Nat.le_zero.mp h
    subst hn
    simp [digits58Aux]
  | succ f ih =>
    intro n h
    cases n with
    | zero => simp [digits58Aux]
    | succ m =>
      rw [show digits58Aux (f + 1) (m + 1) = ((m + 1) % 58) :: digits58Aux f ((m + 1) / 58)
            from rfl,
          Nat.digits_def' (by norm_num : (1:ℕ) < 58) (Nat.succ_pos m)]
      congr 1
      apply ih
      have hlt : (m + 1) / 58 < m + 1 := Nat.div_lt_self (Nat.succ_pos m) (by norm_num)
      omega

theorem digits58_eq_digits (n : ℕ) : digits58 n = Nat.digits 58 n :=
  digits58Aux_eq n n le_rfl

/-- Counterexample for C9 as stated: in the `modified_counts.py` variant the
name encodes the row's DataFrame index, which repeats across rounds (each
round's merged table restarts at index 0 while the dictionary persists), so
two DISTINCT sequences — "A" first in round 1, "B" first in round 2, both at
row index 0 — receive the SAME name `seq_1`: the assignment is not injective,
hence not a bijection. -/
theorem unique_name_collision_cex :
    unique_sequence_name_generator_mc [] 0 seqA = (pfxSeq ++ "_" ++ "1", [(seqA, pfxSeq ++ "_" ++ "1")]) ∧
    unique_sequence_name_generator_mc [(seqA, pfxSeq ++ "_" ++ "1")] 0 seqB =
      (pfxSeq ++ "_" ++ "1", [(seqA, pfxSeq ++ "_" ++ "1"), (seqB, pfxSeq ++ "_" ++ "1")]) ∧
    seqA ≠ seqB := by
  refine ⟨rfl, rfl, by decide⟩

theorem chars58_nodup : chars58.Nodup := by decide

theorem chars58_length : chars58.length = 58 := by decide

theorem getD_chars58_inj {a b : ℕ} (ha : a < 58) (hb : b < 58)
    (h : chars58.getD a '?' = chars58.getD b '?') : a = b := by
  have ha2 : a < chars58.length := by rw [chars58_length]; exact ha
  have hb2 : b < chars58.length := by rw [chars58_length]; exact hb
  rw [List.getD_eq_getElem chars58 '?' ha2, List.getD_eq_getElem chars58 '?' hb2] at h
  exact (List.Nodup.getElem_inj_iff chars58_nodup).mp h

theorem map_chars58_inj : ∀ (l1 l2 : List ℕ), (∀ d ∈ l1, d < 58) → (∀ d ∈ l2, d < 58) →
    l1.map (fun d => chars58.getD d '?') = l2.map (fun d => chars58.getD d '?') → l1 = l2 := by
  intro l1
  induction l1 with
  | nil =>
    intro l2 _ _ h
    cases l2 with
    | nil => rfl
    | cons b bs => simp at h
  | cons a as ih =>
    intro l2 h1 h2 h
    cases l2 with
    | nil => simp at h
    | cons b bs =>
      simp only [List.map_cons, List.cons.injEq] at h
      have hab : a = b :=
        getD_chars58_inj (h1 a (List.mem_cons_self a as)) (h2 b (List.mem_cons_self b bs)) h.1
      have htl : as = bs :=
        ih bs (fun d hd => h1 d (List.mem_cons_of_mem a hd))
          (fun d hd => h2 d (List.mem_cons_of_mem b hd)) h.2
      rw [hab, htl]

theorem base_encode_inj (pfx : String) {m n : ℕ} (hm : 0 < m) (hn : 0 < n)
    (h : base_encode pfx m = base_encode pfx n) : m = n := by
  unfold base_encode at h
  rw [if_neg (Nat.pos_iff_ne_zero.mp hm), if_neg (Nat.pos_iff_ne_zero.mp hn)] at h
  have hdata := congrArg String.data h
  simp only [String.data_append] at hdata
  have hlists := List.append_cancel_left hdata
  rw [digits58_eq_digits, digits58_eq_digits] at hlists
  have hmn :
      (Nat.digits 58 m).reverse.map (fun d => chars58.getD d '?') =
      (Nat.digits 58 n).reverse.map (fun d => chars58.getD d '?') := hlists
  have hrev : (Nat.digits 58 m).reverse = (Nat.digits 58 n).reverse :=
    map_chars58_inj _ _
      (fun d hd => Nat.digits_lt_base (by norm_num) (List.mem_reverse.mp hd))
      (fun d hd => Nat.digits_lt_base (by norm_num) (List.mem_reverse.mp hd)) hmn
  have hdig : Nat.digits 58 m = Nat.digits 58 n := List.reverse_injective hrev
  calc m = Nat.ofDigits 58 (Nat.digits 58 m) := (Nat.ofDigits_digits 58 m).symm
    _ = Nat.ofDigits 58 (Nat.digits 58 n) := by rw [hdig]
    _ = n := Nat.ofDigits_digits 58 n

theorem lookup_none_not_mem {seq : String} : ∀ {d : List (String × String)},
    d.lookup seq = Option.none → seq ∉ d.map Prod.fst := by
  intro d
  induction d with
  | nil => intro _ h; simp at h
  | cons kv rest ih =>
    intro h hmem
    by_cases hk : seq = kv.1
    · rw [List.lookup, show (seq == kv.1) = true by simpa using hk] at h
      cases h
    · rw [List.lookup, show (seq == kv.1) = false by simpa using hk] at h
      rcases List.mem_cons.mp hmem with hc | hc
      · exact hk hc
      · exact ih h hc

theorem mem_lookup_some {seq : String} : ∀ {d : List (String × String)},
    seq ∈ d.map Prod.fst → ∃ n, d.lookup seq = Option.some n := by
  intro d
  induction d with
  | nil => intro h; simp at h
  | cons kv rest ih =>
    intro hmem
    by_cases hk : seq = kv.1
    · exact ⟨kv.2, by rw [List.lookup, show (seq == kv.1) = true by simpa using hk]⟩
    · rcases List.mem_cons.mp hmem with hc | hc
      · exact absurd hc hk
      · obtain ⟨n, hn⟩ := ih hc
        exact ⟨n, by rw [List.lookup, show (seq == kv.1) = false by simpa using hk]; exact hn⟩

theorem assignInv_nil (pfx : String) : AssignInv pfx [] := by
  constructor <;> simp

theorem assignInv_step (pfx : String) (d : List (String × String)) (s : String)
    (h : AssignInv pfx d) : AssignInv pfx (unique_sequence_name_generator pfx d s).2 := by
  obtain ⟨h1, h2⟩ := h
  unfold unique_sequence_name_generator
  cases hl : d.lookup s with
  | some n => exact ⟨h1, h2⟩
  | none =>
    constructor
    · simp only [List.map_append, List.length_append, List.map_cons, List.map_nil,
        List.length_cons, List.length_nil]
      rw [h1]
      rw [show d.length + (0 + 1) = d.length + 1 by omega, List.range_succ, List.map_append]
      simp [List.length_map] at h1 ⊢
    · simp only [List.map_append, List.map_cons, List.map_nil]
      rw [List.nodup_append]
      refine ⟨h2, List.nodup_singleton s, ?_⟩
      intro x hx hs
      rcases List.mem_singleton.mp hs with rfl
      exact lookup_none_not_mem hl hx

theorem assignInv_run (pfx : String) (seqs : List String) :
    AssignInv pfx (runAssign pfx [] seqs) := by
  suffices h : ∀ (d : List (String × String)), AssignInv pfx d →
      AssignInv pfx (runAssign pfx d seqs) from h [] (assignInv_nil pfx)
  induction seqs with
  | nil => intro d hd; exact hd
  | cons s rest ih =>
    intro d hd
    exact ih _ (assignInv_step pfx d s hd)

theorem assignInv_snd_nodup {pfx : String} {d : List (String × String)}
    (h : AssignInv pfx d) : (d.map Prod.snd).Nodup := by
  rw [h.1]
  refine List.Nodup.map_on ?_ (List.nodup_range _)
  intro x hx y hy hxy
  have := base_encode_inj pfx (Nat.succ_pos x) (Nat.succ_pos y) hxy
  omega

/-- Claim C9 (amended): in the `seq_names_and_bootstrap.py` variant — whose
new names encode `len(sequence_dict) + 1` — the assignment built by any run
is a bijection between the sequence strings seen and their names: a string
is paired with exactly one name, two distinct strings never share a name,
and a repeated call for an already-seen string leaves the dictionary
unchanged.  (The `modified_counts.py` variant, which encodes the row index
instead, violates injectivity across rounds — see
`unique_name_collision_cex`.) -/
theorem unique_sequence_name_bijection (pfx : String) (seqs : List String) :
    (∀ s n1 n2, (s, n1) ∈ runAssign pfx [] seqs → (s, n2) ∈ runAssign pfx [] seqs → n1 = n2) ∧
    (∀ s1 s2 n, (s1, n) ∈ runAssign pfx [] seqs → (s2, n) ∈ runAssign pfx [] seqs → s1 = s2) ∧
    (∀ s, s ∈ (runAssign pfx [] seqs).map Prod.fst →
      (unique_sequence_name_generator pfx (runAssign pfx [] seqs) s).2 =
        runAssign pfx [] seqs) := by
  have hinv := assignInv_run pfx seqs
  refine ⟨?_, ?_, ?_⟩
  · intro s n1 n2 hm1 hm2
    have hp := List.inj_on_of_nodup_map hinv.2 hm1 hm2 rfl
    exact congrArg Prod.snd hp
  · intro s1 s2 n hm1 hm2
    have hsnd := assignInv_snd_nodup hinv
    have hp := List.inj_on_of_nodup_map hsnd hm1 hm2 rfl
    exact congrArg Prod.fst hp
  · intro s hs
    obtain ⟨n, hn⟩ := mem_lookup_some hs
    unfold unique_sequence_name_generator
    rw [hn]

/-- Witness for C9: the run on sequences `A, B, A` assigns `nt_2` to `A` and
`nt_3` to `B` (the first new name encodes 1, whose base-58 digit character is
`'2'`), and a repeated call for `A` leaves the dictionary unchanged. -/
theorem unique_sequence_name_bijection_witness :
    runAssign pfxNT [] [seqA, seqB, seqA] =
      [(seqA, pfxNT ++ "_" ++ "2"), (seqB, pfxNT ++ "_" ++ "3")] ∧
    (unique_sequence_name_generator pfxNT (runAssign pfxNT [] [seqA, seqB, seqA]) seqA).2 =
      runAssign pfxNT [] [seqA, seqB, seqA] ∧
    ((seqA, pfxNT ++ "_" ++ "2") ∈ runAssign pfxNT [] [seqA, seqB, seqA] →
      (seqB, pfxNT ++ "_" ++ "2") ∈ runAssign pfxNT [] [seqA, seqB, seqA] → seqA = seqB) :=
  ⟨rfl,
   (unique_sequence_name_bijection pfxNT [seqA, seqB, seqA]).2.2 seqA (by decide),
   fun h1 h2 =>
     (unique_sequence_name_bijection pfxNT [seqA, seqB, seqA]).2.1 seqA seqB
       (pfxNT ++ "_" ++ "2") h1 h2⟩
